import Mathlib

/-!
# Verification of the textify batch-processing core

A shallow embedding, in Lean 4, of the parts of the `textify` repository
(`textify/utils.py`, `textify/media.py`, `textify/documents.py`,
`textify/system.py`) that the specification's testable claims are about:

* the Python `os.path` string operations (`splitext`, `basename`,
  `dirname`, `join`) used to derive marker and dump paths,
* `get_eligible_files` (directory mode and file-list mode) and
  `categorize_files` from `utils.py`,
* the per-file write traces of `process_audio_video_files` (`media.py`)
  and `process_document_files` / `process_document_with_ocr`
  (`documents.py`),
* `estimate_processing_time` from `media.py`,
* the sampling loop and trapezoidal energy integration of
  `monitor_resources` from `system.py`.

The filesystem is modelled explicitly (an existence predicate and a
directory-listing function), Python floats are modelled by `ℚ`, and code
that can raise is modelled with `Except`.  Real wall-clock time and
Python's `%.2f` float formatting are abstracted: timestamps and the
two-decimal formatter are parameters of the definitions that use them.
-/

namespace Textify

/-! ## Python `os.path` string primitives (POSIX flavour)

These mirror CPython's `posixpath` implementations, operating on
`List Char`; `String` wrappers follow.  -/

/-- Split a list at the LAST occurrence of `ch`: returns `some (before, after)`
with `l = before ++ ch :: after` and `ch ∉ after`, or `none` if `ch ∉ l`. -/
def breakLast (ch : Char) : List Char → Option (List Char × List Char)
  | [] => none
  | c :: rest =>
    match breakLast ch rest with
    | some (b, a) => some (c :: b, a)
    | none => if c = ch then some ([], rest) else none

/-- Characters after the last `'/'` (the whole list if there is none):
the list form of `posixpath.basename`. -/
def basenameList (l : List Char) : List Char :=
  match breakLast '/' l with
  | none => l
  | some (_, a) => a

/-- `head = p[:i]` for `i = p.rfind('/') + 1`, as in `posixpath.dirname`. -/
def dirnameHead (l : List Char) : List Char :=
  match breakLast '/' l with
  | none => []
  | some (b, _) => b ++ ['/']

/-- Remove trailing `'/'` characters (`str.rstrip('/')`). -/
def rstripSlashes (l : List Char) : List Char :=
  (l.reverse.dropWhile (fun c => c = '/')).reverse

/-- List form of `posixpath.dirname`: take the head up to the last slash;
if it is nonempty and not made only of slashes, strip its trailing
slashes. -/
def dirnameList (l : List Char) : List Char :=
  let head := dirnameHead l
  if head ≠ [] ∧ ¬ head.all (fun c => c = '/') then rstripSlashes head else head

/-- List form of `posixpath.splitext`: split off the extension at the last
dot, provided that dot lies after the last slash and that some non-dot
character precedes it within the basename (so `".bashrc"` has no
extension). -/
def splitextList (l : List Char) : List Char × List Char :=
  match breakLast '.' l with
  | none => (l, [])
  | some (before, after) =>
    if '/' ∈ after then (l, [])
    else
      let baseBeforeDot := basenameList before
      if baseBeforeDot.any (fun c => c ≠ '.') then (before, '.' :: after)
      else (l, [])

/-- `os.path.basename` on strings. -/
def pyBasename (p : String) : String := String.mk (basenameList p.toList)

/-- `os.path.dirname` on strings. -/
def pyDirname (p : String) : String := String.mk (dirnameList p.toList)

/-- `os.path.splitext` on strings, returning `(root, ext)`. -/
def pySplitext (p : String) : String × String :=
  (String.mk (splitextList p.toList).1, String.mk (splitextList p.toList).2)

/-- `str.lower()` (ASCII; all extensions involved are ASCII). -/
def pyLower (s : String) : String := String.mk (s.toList.map Char.toLower)

/-- `str.lstrip "."` — drop all leading dots (`media.py` line 111). -/
def pyLstripDots (s : String) : String :=
  String.mk (s.toList.dropWhile (fun c => c = '.'))

/-- `str[1:]` — drop the first character (`utils.py` lines 82 and 111,
`documents.py` line 111). -/
def pyDropFirst (s : String) : String := String.mk (s.toList.drop 1)

/-- Does the string end with `'/'`? -/
def endsWithSlash (s : String) : Bool :=
  match s.toList.reverse with
  | [] => false
  | c :: _ => c = '/'

/-- `posixpath.join` for two components: if `b` is absolute return `b`;
if `a` is empty or ends with a slash, concatenate; otherwise insert a
slash. -/
def pyJoin (a b : String) : String :=
  if b.toList.head? = some '/' then b
  else if a = "" ∨ endsWithSlash a then a ++ b
  else a ++ "/" ++ b

/-! ## Supported extension lists (`utils.py` lines 57–72) -/

/-- The audio/video extension list of `get_eligible_files`
(`utils.py` lines 58–63); `categorize_files` (lines 135–140) repeats the
same literal list. -/
def audio_video_extensions : List String :=
  [".mp3", ".wav", ".aac", ".flac", ".ogg", ".m4a", ".wma",
   ".mp4", ".mov", ".avi", ".wmv", ".flv", ".mkv", ".webm",
   ".m4v", ".mpg", ".mpeg", ".3gp", ".3g2", ".rm", ".rmvb",
   ".vob", ".ts", ".ogv", ".f4v", ".divx"]

/-- The document/image extension list of `get_eligible_files`
(`utils.py` lines 66–69); `categorize_files` (lines 143–146) repeats the
same literal list. -/
def document_image_extensions : List String :=
  [".pdf", ".jpg", ".jpeg", ".png", ".bmp", ".tiff", ".tif",
   ".webp", ".gif", ".heic", ".heif"]

/-- `supported_extensions = audio_video_extensions + document_image_extensions`
(`utils.py` line 72). -/
def supported_extensions : List String :=
  audio_video_extensions ++ document_image_extensions

/-! ## Filesystem model and logging model -/

/-- A log record emitted through Python's `logging` module; only the
records the embedded code emits are modelled. -/
inductive LogEvent where
  | warning (msg : String)
  | info (msg : String)
  | error (msg : String)
deriving DecidableEq, Repr

/-- The filesystem view `get_eligible_files` consumes: `os.path.exists`
and `os.listdir`. -/
structure FS where
  pathExists : String → Bool
  listdir : String → List String

/-! ## `get_eligible_files` (`utils.py` lines 40–121) -/

/-- The supported-extension test applied to a directory entry
(`utils.py` lines 76–77): `os.path.splitext(f)[1].lower() in
supported_extensions`. -/
def extSupported (f : String) : Bool :=
  supported_extensions.contains (pyLower (pySplitext f).2)

/-- The marker path checked in directory mode for entry `file_name` of
`input_dir` (`utils.py` lines 81–83):
`os.path.join(input_dir, f"{base_name}_{ext}.txt")` with
`base_name = splitext(file_name)[0]` and
`ext = splitext(file_name)[1].lower()[1:]`. -/
def dirMarkerPath (input_dir file_name : String) : String :=
  let base_name := (pySplitext file_name).1
  let ext := pyDropFirst (pyLower (pySplitext file_name).2)
  pyJoin input_dir (base_name ++ "_" ++ ext ++ ".txt")

/-- The eligibility loop of directory mode (`utils.py` lines 79–85):
append `join(input_dir, file_name)` for each listed `file_name` whose
marker does not exist. -/
def dirEligLoop (fs : FS) (input_dir : String) : List String → List String
  | [] => []
  | file_name :: rest =>
    if ¬ fs.pathExists (dirMarkerPath input_dir file_name) then
      pyJoin input_dir file_name :: dirEligLoop fs input_dir rest
    else
      dirEligLoop fs input_dir rest

/-- Directory mode of `get_eligible_files` (`utils.py` lines 74–87):
filter the directory listing to supported extensions, then keep entries
whose marker file does not exist. -/
def getEligibleDir (fs : FS) (input_dir : String) : List String :=
  let files := (fs.listdir input_dir).filter extSupported
  dirEligLoop fs input_dir files

/-- The marker path checked in file-list mode for `file_path`
(`utils.py` lines 109–112): `os.path.join(dir_name,
f"{base_name}_{ext}.txt")` with `dir_name = dirname(file_path)`,
`base_name = splitext(basename(file_path))[0]` and
`ext = splitext(file_path)[1].lower()[1:]`. -/
def listMarkerPath (file_path : String) : String :=
  let dir_name := pyDirname file_path
  let base_name := (pySplitext (pyBasename file_path)).1
  let ext := pyDropFirst (pyLower (pySplitext file_path).2)
  pyJoin dir_name (base_name ++ "_" ++ ext ++ ".txt")

/-- One iteration of the file-list loop of `get_eligible_files`
(`utils.py` lines 92–117): returns the paths appended to
`eligible_files` (none or one) and the log records emitted, for this
`file_path`. -/
def eligStep (fs : FS) (verbose : Bool) (file_path : String) :
    List String × List LogEvent :=
  if ¬ fs.pathExists file_path then
    ([], [.warning ("File not found: " ++ file_path)])
  else
    let ext := pyLower (pySplitext file_path).2
    if ¬ supported_extensions.contains ext then
      if ext = ".txt" then ([], [])
      else if verbose then ([], [.warning ("Unsupported file type: " ++ file_path)])
      else ([], [])
    else if ¬ fs.pathExists (listMarkerPath file_path) then
      ([file_path], [])
    else
      ([], [.info ("Skipping " ++ file_path ++ " - already processed")])

/-- File-list mode of `get_eligible_files` (`utils.py` lines 89–119):
run `eligStep` over the list in order, concatenating eligible paths and
log records. -/
def getEligibleList (fs : FS) (verbose : Bool) :
    List String → List String × List LogEvent
  | [] => ([], [])
  | p :: rest =>
    let s := eligStep fs verbose p
    let r := getEligibleList fs verbose rest
    (s.1 ++ r.1, s.2 ++ r.2)

/-- Python truthiness of the optional `input_dir : str = None` argument:
`None` and `""` are falsy. -/
def strTruthy : Option String → Bool
  | none => false
  | some s => s ≠ ""

/-- Python truthiness of the optional `file_list : list = None` argument:
`None` and `[]` are falsy. -/
def listTruthy : Option (List String) → Bool
  | none => false
  | some l => l ≠ []

/-- `get_eligible_files(input_dir=None, file_list=None, verbose=False)`
(`utils.py` lines 40–121): directory mode if `input_dir` is truthy, else
file-list mode if `file_list` is truthy, else `[]` (line 121).
Directory mode emits no log records. -/
def get_eligible_files (fs : FS) (input_dir : Option String := none)
    (file_list : Option (List String) := none) (verbose : Bool := false) :
    List String × List LogEvent :=
  if strTruthy input_dir then
    (getEligibleDir fs (input_dir.getD ""), [])
  else if listTruthy file_list then
    getEligibleList fs verbose (file_list.getD [])
  else
    ([], [])

/-! ## `categorize_files` (`utils.py` lines 124–158) -/

/-- `categorize_files(files)`: partition by lower-cased extension into
the audio/video list and the document/image list; files matching neither
are dropped. -/
def categorize_files : List String → List String × List String
  | [] => ([], [])
  | file_path :: rest =>
    let r := categorize_files rest
    let ext := pyLower (pySplitext file_path).2
    if audio_video_extensions.contains ext then (file_path :: r.1, r.2)
    else if document_image_extensions.contains ext then (r.1, file_path :: r.2)
    else (r.1, r.2)

/-! ## `format_time_for_display` (`utils.py` lines 17–37)

Python's `f"{x:.2f}"` float formatting is abstracted as the parameter
`fmt`; the branch structure and unit strings follow the source. -/

def format_time_for_display (fmt : ℚ → String) (seconds : ℚ) : String :=
  if seconds < 60 then fmt seconds ++ " seconds"
  else if seconds < 3600 then
    fmt (seconds / 60) ++ " minutes (" ++ fmt seconds ++ " seconds)"
  else if seconds < 86400 then
    fmt (seconds / 3600) ++ " hours (" ++ fmt seconds ++ " seconds)"
  else
    fmt (seconds / 86400) ++ " days (" ++ fmt seconds ++ " seconds)"

/-! ## Per-file write traces of the two pipelines -/

/-- One `open(..., mode)` context together with everything written in it:
`write` models mode `"w"` (create/truncate), `append` models mode `"a"`. -/
inductive FileOp where
  | write (path content : String)
  | append (path content : String)
deriving DecidableEq, Repr

/-- The path an operation touches. -/
def FileOp.path : FileOp → String
  | .write p _ => p
  | .append p _ => p

/-- Does this operation create/truncate the file at `p` (mode `"w"`)? -/
def FileOp.isWriteTo (op : FileOp) (p : String) : Bool :=
  match op with
  | .write q _ => q == p
  | .append _ _ => false

/-- Marker path written by `process_audio_video_files` for input `fp`
(`media.py` lines 110–112): `base = splitext(basename(fp))[0]`,
`ext = splitext(fp)[1].lower().lstrip(".")`,
`txt = join(dirname(fp), f"{base}_{ext}.txt")`. -/
def avMarkerPath (fp : String) : String :=
  let base := (pySplitext (pyBasename fp)).1
  let ext := pyLstripDots (pyLower (pySplitext fp).2)
  pyJoin (pyDirname fp) (base ++ "_" ++ ext ++ ".txt")

/-- Dump path written by `process_audio_video_files` for input `fp`
(`media.py` line 113). -/
def avDumpPath (fp : String) : String :=
  let base := (pySplitext (pyBasename fp)).1
  let ext := pyLstripDots (pyLower (pySplitext fp).2)
  pyJoin (pyDirname fp) (base ++ "_" ++ ext ++ "_dump.txt")

/-- Dump header written by `process_audio_video_files`
(`media.py` lines 124–127). -/
def avHeader (fmt : ℚ → String) (start_stamp : String) (duration est : ℚ) : String :=
  "Start: " ++ start_stamp ++ "\nDuration: " ++ fmt duration ++ "s\n" ++
  "Estimated: " ++ format_time_for_display fmt est ++ "\n\n--- Output ---\n\n"

/-- Dump footer written by `process_audio_video_files`
(`media.py` lines 143–146). -/
def avFooter (fmt : ℚ → String) (end_stamp : String) (elapsed : ℚ) : String :=
  "\n\n--- Summary ---\nEnd: " ++ end_stamp ++ "\nActual: " ++
  format_time_for_display fmt elapsed ++ "\n"

/-- The write trace of one iteration of the loop in
`process_audio_video_files` (`media.py` lines 109–148).  `outcome`
models `model.transcribe`: `.ok text` is a successful transcription,
`.error e` an exception caught by lines 137–140.  Wall-clock stamps and
elapsed time are parameters. -/
def processOneAV (fp : String) (fmt : ℚ → String) (start_stamp : String)
    (duration est : ℚ) (outcome : Except String String)
    (end_stamp : String) (elapsed : ℚ) : List FileOp :=
  [FileOp.write (avDumpPath fp) (avHeader fmt start_stamp duration est)] ++
  (match outcome with
   | .ok text =>
     [FileOp.append (avDumpPath fp) text,
      FileOp.write (avMarkerPath fp) text]
   | .error e =>
     [FileOp.append (avDumpPath fp) ("\nERROR: " ++ e ++ "\n")]) ++
  [FileOp.append (avDumpPath fp) (avFooter fmt end_stamp elapsed)]

/-- Marker path written by `process_document_files` for input
`file_path` (`documents.py` lines 108–112): same derivation, with
`ext_without_dot = file_ext[1:]`. -/
def docMarkerPath (file_path : String) : String :=
  let base_name := (pySplitext (pyBasename file_path)).1
  let ext_without_dot := pyDropFirst (pyLower (pySplitext file_path).2)
  pyJoin (pyDirname file_path) (base_name ++ "_" ++ ext_without_dot ++ ".txt")

/-- Dump path written by `process_document_files`
(`documents.py` line 113). -/
def docDumpPath (file_path : String) : String :=
  let base_name := (pySplitext (pyBasename file_path)).1
  let ext_without_dot := pyDropFirst (pyLower (pySplitext file_path).2)
  pyJoin (pyDirname file_path) (base_name ++ "_" ++ ext_without_dot ++ "_dump.txt")

/-- Dump header written by `process_document_files`
(`documents.py` lines 121–124), one `open` context. -/
def docHeader (start_datetime : String) : String :=
  "Start time: " ++ start_datetime ++ "\n" ++
  "Document/image processing with OCR\n" ++
  "\n--- Processing Output ---\n\n"

/-- Dump footer written by `process_document_files`
(`documents.py` lines 147–150), one `open` context. -/
def docFooter (fmt : ℚ → String) (end_datetime : String) (elapsed : ℚ) : String :=
  "\n\n--- Processing Summary ---\n" ++ "End time: " ++ end_datetime ++ "\n" ++
  "Actual processing time: " ++ format_time_for_display fmt elapsed ++ "\n"

/-- The write trace of one iteration of the loop in
`process_document_files` (`documents.py` lines 107–152).  `outcome`
models the body of the `try` block (the `process_document_with_ocr`
call): `.ok extracted_text` is a normal return, `.error e` an exception
caught by lines 138–141.  Since `process_document_with_ocr` catches all
its own exceptions, callers always reach the `.ok` branch. -/
def processOneDoc (file_path : String) (fmt : ℚ → String)
    (start_datetime : String) (outcome : Except String String)
    (end_datetime : String) (elapsed : ℚ) : List FileOp :=
  [FileOp.write (docDumpPath file_path) (docHeader start_datetime)] ++
  (match outcome with
   | .ok extracted_text =>
     [FileOp.append (docDumpPath file_path) extracted_text,
      FileOp.write (docMarkerPath file_path) extracted_text]
   | .error e =>
     [FileOp.append (docDumpPath file_path) ("\nERROR: " ++ e ++ "\n")]) ++
  [FileOp.append (docDumpPath file_path) (docFooter fmt end_datetime elapsed)]

/-! ## One batch over a directory (`core.py` main flow, lines 94–182)

`main` discovers eligible files, categorizes them, and runs
`process_audio_video_files` then `process_document_files`.  The
per-file external outcomes (wall clock, durations, transcription and
OCR results) are collected in a `BatchEnv`. -/

structure BatchEnv where
  /-- models Python's `f"{x:.2f}"` float formatting -/
  fmt : ℚ → String
  /-- per-file start timestamp string -/
  startStamp : String → String
  /-- per-file end timestamp string -/
  endStamp : String → String
  /-- per-file `get_media_duration` result -/
  duration : String → ℚ
  /-- per-file `estimate_processing_time` result -/
  est : String → ℚ
  /-- per-file elapsed wall-clock seconds -/
  elapsed : String → ℚ
  /-- per-file `model.transcribe` outcome (`.error` = raised exception) -/
  transcribe : String → Except String String
  /-- per-file `process_document_with_ocr` return value (always returns) -/
  ocrText : String → String

/-- The number of transcription/OCR invocations one batch performs over
directory `input_dir`: each file of the categorized eligible lists gets
exactly one `model.transcribe` (`media.py` line 131) or one
`process_document_with_ocr` (`documents.py` line 128) call. -/
def batchInvocations (fs : FS) (input_dir : String) : ℕ :=
  let elig := getEligibleDir fs input_dir
  (categorize_files elig).1.length + (categorize_files elig).2.length

/-- All file writes one batch performs over directory `input_dir`:
`process_audio_video_files` over the audio/video list, then
`process_document_files` over the document/image list. -/
def batchOps (env : BatchEnv) (fs : FS) (input_dir : String) : List FileOp :=
  let elig := getEligibleDir fs input_dir
  let av := (categorize_files elig).1
  let docs := (categorize_files elig).2
  (av.map fun fp =>
    processOneAV fp env.fmt (env.startStamp fp) (env.duration fp)
      (env.est fp) (env.transcribe fp) (env.endStamp fp) (env.elapsed fp)).flatten ++
  (docs.map fun fp =>
    processOneDoc fp env.fmt (env.startStamp fp) (.ok (env.ocrText fp))
      (env.endStamp fp) (env.elapsed fp)).flatten

/-- The filesystem after a list of write operations: a written path
exists, and it appears (under its basename) in the listing of its
dirname. -/
def fsAfterOps (fs : FS) (ops : List FileOp) : FS where
  pathExists p := fs.pathExists p || ops.any (fun op => op.path == p)
  listdir dir :=
    fs.listdir dir ++
    ops.filterMap (fun op =>
      if pyDirname op.path == dir then some (pyBasename op.path) else none)

/-- A single directory `d` containing files named `names` (names are
relative, slash-free).  `os.path.exists p` holds exactly when `p` is the
join of `d` with one of the names; `os.listdir d` returns the names. -/
def dirFS (d : String) (names : List String) : FS where
  pathExists p := names.any (fun n => pyJoin d n == p)
  listdir dir := if dir == d then names else []

/-! ## `estimate_processing_time` (`media.py` lines 42–56) -/

/-- Python's `sub in s` substring test, on char lists. -/
def containsSub (sub : List Char) : List Char → Bool
  | [] => sub.isEmpty
  | c :: rest => sub.isPrefixOf (c :: rest) || containsSub sub rest

/-- Python's `sub in s` substring test, on strings. -/
def pyContains (s sub : String) : Bool := containsSub sub.toList s.toList

/-- The `system` module state `estimate_processing_time` reads:
availability flags (`system.py` lines 17–18) and the GPU name query;
`gpu_name = none` models an exception raised inside the `try` of
`media.py` lines 45–55. -/
structure SysState where
  gpu_available : Bool
  pynvml_available : Bool
  gpu_name : Option String

/-- `estimate_processing_time(duration)` (`media.py` lines 42–56):
`0.0` unless GPU and pynvml are available; look up the device name;
`"RTX 4070"` substring → `0.1894*duration + 120.2099`; else
`"RTX 4060 Ti"` substring → `0.3162*duration + 40.9230`; any other
name, or an exception, → `0.0`. -/
def estimate_processing_time (sys : SysState) (duration : ℚ) : ℚ :=
  if ¬ (sys.gpu_available && sys.pynvml_available) then 0
  else
    match sys.gpu_name with
    | none => 0
    | some name =>
      if pyContains name "RTX 4070" then 0.1894 * duration + 120.2099
      else if pyContains name "RTX 4060 Ti" then 0.3162 * duration + 40.9230
      else 0

/-! ## Energy integration in `monitor_resources` (`system.py` lines 282–293) -/

/-- The loop `for i in range(1, len(timestamps))` accumulating
`(gpu_power_data[i] + gpu_power_data[i-1]) / 2 *
(timestamps[i] - timestamps[i-1])` (`system.py` lines 285–289). -/
def energy_joules (timestamps gpu_power_data : List ℚ) : ℚ :=
  ((List.range timestamps.length).drop 1).foldl
    (fun acc i =>
      acc + (gpu_power_data.getD i 0 + gpu_power_data.getD (i - 1) 0) / 2 *
        (timestamps.getD i 0 - timestamps.getD (i - 1) 0)) 0

/-- The energy figure `monitor_resources` logs on stop
(`system.py` lines 270–293): guarded by `gpu_usage_data` nonempty,
`gpu_power_data` nonempty, `len(gpu_power_data) > 1` and
`len(timestamps) == len(gpu_power_data)`; value `energy_joules / 3600`
watt-hours.  `none` means no energy line is logged. -/
def gpuEnergyWh (timestamps gpu_usage_data gpu_power_data : List ℚ) : Option ℚ :=
  if gpu_usage_data ≠ [] then
    if gpu_power_data ≠ [] then
      if 1 < gpu_power_data.length ∧ timestamps.length = gpu_power_data.length then
        some (energy_joules timestamps gpu_power_data / 3600)
      else none
    else none
  else none

/-! ## The sampling loop of `monitor_resources` (`system.py` lines 237–258)

The loop's interaction with the stop event is modelled as a trace of
actions.  `oracle k` is the value the stop event shows at its `k`-th
observation (`is_set()` at the loop head, or the outcome of
`wait(interval)`); a monotone oracle models a `threading.Event`, which
once set stays set.  Real time is abstracted: `wait` returning `false`
is a timeout, returning `true` is the event firing during the wait. -/

inductive Action where
  | sample
  | observe (b : Bool)
  | stats
deriving DecidableEq, Repr

/-- The `while not stop_event.is_set():` loop (`system.py` lines
242–255), with a fuel bound on the number of iterations reached:
observe `is_set()`; if set, exit; otherwise observe `wait(interval)`;
if it returns `True`, break; otherwise take a sample and loop. -/
def monitorLoop (oracle : ℕ → Bool) : ℕ → ℕ → List Action
  | 0, _ => []
  | fuel + 1, k =>
    Action.observe (oracle k) ::
      (if oracle k then []
       else Action.observe (oracle (k + 1)) ::
         (if oracle (k + 1) then []
          else Action.sample :: monitorLoop oracle fuel (k + 2)))

/-- `monitor_resources`' control skeleton (`system.py` lines 237–258):
one immediate sample (line 238), the loop, then the final statistics
computation (lines 257 onward). -/
def monitorRun (oracle : ℕ → Bool) (fuel : ℕ) : List Action :=
  Action.sample :: (monitorLoop oracle fuel 0 ++ [Action.stats])

/-! ## `process_document_with_ocr` (`documents.py` lines 20–89)

The OCR engine, PyMuPDF and the filesystem are external collaborators;
their per-call behaviour is collected in an `OcrEnv`.  Operations that
can raise are `Except`-valued; `.error e` models a raised exception
whose `str()` is `e`. -/

/-- `str.strip()` with ASCII whitespace, used for `if text.strip():`
(`documents.py` line 57). -/
def pyStrip (s : String) : String :=
  String.mk (((s.toList.dropWhile Char.isWhitespace).reverse.dropWhile
    Char.isWhitespace).reverse)

/-- One PDF page as PyMuPDF and EasyOCR expose it to the code:
`directText` is `page.get_text()`; `ocrTexts` is the text column of
`reader.readtext` applied to the page's rasterized image (may raise). -/
structure Page where
  directText : String
  ocrTexts : Except String (List String)

/-- External collaborators of one `process_document_with_ocr` call. -/
structure OcrEnv where
  /-- `system.easyocr_available` -/
  easyocr_available : Bool
  /-- constructing `easyocr.Reader(['en', 'ja'])` (may raise) -/
  readerInit : Except String Unit
  /-- does `import fitz` succeed?  `false` models `ImportError` -/
  fitzAvailable : Bool
  /-- `fitz.open(file_path)` and page iteration (may raise) -/
  fitzOpen : Except String (List Page)
  /-- text column of `reader.readtext(file_path)` (may raise) -/
  readtextFile : Except String (List String)

/-- The per-page loop of the PDF branch (`documents.py` lines 52–68),
carrying the 1-based page number used in the headers: direct text when
`page.get_text()` strips to nonempty, else OCR on the page image. -/
def pagesLoop : List Page → ℕ → Except String (List String)
  | [], _ => .ok []
  | pg :: rest, n =>
    if pyStrip pg.directText ≠ "" then do
      let ts ← pagesLoop rest (n + 1)
      .ok (("--- Page " ++ toString n ++ " (direct text) ---\n" ++
        pg.directText ++ "\n") :: ts)
    else do
      let results ← pg.ocrTexts
      let ocr_text := String.intercalate "\n" results
      let ts ← pagesLoop rest (n + 1)
      .ok (("--- Page " ++ toString n ++ " (OCR) ---\n" ++ ocr_text ++ "\n") :: ts)

/-- The body of the outer `try` of `process_document_with_ocr`
(`documents.py` lines 37–85): initialize the reader; for `.pdf` input
use PyMuPDF (falling back to `reader.readtext(file_path)` on
`ImportError`); for other input run `reader.readtext(file_path)`.
An `.error` result models an exception reaching the outer `except`. -/
def ocrBody (env : OcrEnv) (file_path : String) : Except String String := do
  let _ ← env.readerInit
  if pyLower (pySplitext file_path).2 = ".pdf" then
    if env.fitzAvailable then do
      let pages ← env.fitzOpen
      let all_text ← pagesLoop pages 1
      .ok (String.intercalate "\n" all_text)
    else do
      let results ← env.readtextFile
      .ok (String.intercalate "\n" results)
  else do
    let results ← env.readtextFile
    .ok (String.intercalate "\n" results)

/-- `process_document_with_ocr(file_path)` (`documents.py` lines 20–89):
empty string (with a warning) when EasyOCR is unavailable; otherwise
run the body, converting any exception into the returned string
`"ERROR during OCR processing: " + str(e)` (with an error log).
Info-level progress logs are not modelled. -/
def process_document_with_ocr (env : OcrEnv) (file_path : String) :
    String × List LogEvent :=
  if ¬ env.easyocr_available then
    ("", [.warning "EasyOCR not available. Cannot process document."])
  else
    match ocrBody env file_path with
    | .ok t => (t, [])
    | .error e =>
      ("ERROR during OCR processing: " ++ e,
       [.error ("Error during OCR processing: " ++ e)])

/-! ## Lemmas about the path primitives -/

theorem breakLast_eq_none {ch : Char} {l : List Char} (h : ch ∉ l) :
    breakLast ch l = none := by
  induction l with
  | nil => rfl
  | cons c rest ih =>
    simp only [List.mem_cons, not_or] at h
    simp [breakLast, ih h.2, if_neg (Ne.symm h.1)]

theorem breakLast_append {ch : Char} {a : List Char} (b : List Char)
    (h : ch ∉ a) : breakLast ch (b ++ ch :: a) = some (b, a) := by
  induction b with
  | nil => simp [breakLast, breakLast_eq_none h]
  | cons c b ih => simp [breakLast, ih]

theorem mem_of_breakLast_eq_none {ch : Char} {l : List Char}
    (h : breakLast ch l = none) : ch ∉ l := by
  induction l with
  | nil => simp
  | cons c rest ih =>
    simp only [breakLast] at h
    cases hrest : breakLast ch rest with
    | some p => simp [hrest] at h
    | none =>
      rw [hrest] at h
      by_cases hc : c = ch
      · simp [if_pos hc] at h
      · simpa [Ne.symm hc] using ih hrest

theorem breakLast_spec {ch : Char} {l b a : List Char}
    (h : breakLast ch l = some (b, a)) : l = b ++ ch :: a ∧ ch ∉ a := by
  induction l generalizing b a with
  | nil => simp [breakLast] at h
  | cons c rest ih =>
    simp only [breakLast] at h
    cases hrest : breakLast ch rest with
    | some p =>
      rw [hrest] at h
      obtain ⟨b', a'⟩ := p
      simp only [Option.some.injEq, Prod.mk.injEq] at h
      obtain ⟨rfl, rfl⟩ := And.intro h.1.symm h.2.symm
      obtain ⟨heq, hmem⟩ := ih hrest
      exact ⟨by simp [← heq], hmem⟩
    | none =>
      rw [hrest] at h
      by_cases hc : c = ch
      · simp only [if_pos hc, Option.some.injEq, Prod.mk.injEq] at h
        obtain ⟨rfl, rfl⟩ := And.intro h.1.symm h.2.symm
        exact ⟨by simp [hc], mem_of_breakLast_eq_none hrest⟩
      · simp [if_neg hc] at h

theorem breakLast_append_no_mem {ch : Char} {t : List Char} (l : List Char)
    (h : ch ∉ t) :
    breakLast ch (l ++ t) = (breakLast ch l).map (fun p => (p.1, p.2 ++ t)) := by
  cases hl : breakLast ch l with
  | none =>
    have hnl := mem_of_breakLast_eq_none hl
    have : ch ∉ l ++ t := by simp [List.mem_append, hnl, h]
    simp [breakLast_eq_none this]
  | some p =>
    obtain ⟨b, a⟩ := p
    obtain ⟨heq, hna⟩ := breakLast_spec hl
    have : l ++ t = b ++ ch :: (a ++ t) := by simp [heq]
    rw [this, breakLast_append b (by simp [List.mem_append, hna, h])]
    rfl

theorem basenameList_no_slash (l : List Char) : '/' ∉ basenameList l := by
  unfold basenameList
  cases hb : breakLast '/' l with
  | none => exact mem_of_breakLast_eq_none hb
  | some p => exact (breakLast_spec hb).2

theorem basenameList_append {a : List Char} (b : List Char) (h : '/' ∉ a) :
    basenameList (b ++ '/' :: a) = a := by
  unfold basenameList
  rw [breakLast_append b h]

theorem basenameList_of_no_slash {l : List Char} (h : '/' ∉ l) :
    basenameList l = l := by
  unfold basenameList
  rw [breakLast_eq_none h]

theorem rstripSlashes_append_slash (l : List Char) :
    rstripSlashes (l ++ ['/']) = rstripSlashes l := by
  unfold rstripSlashes
  simp

theorem rstripSlashes_of_getLast {l : List Char} (h : ∀ c, l.getLast? = some c → c ≠ '/') :
    rstripSlashes l = l := by
  unfold rstripSlashes
  cases hr : l.reverse with
  | nil => simpa using congrArg List.reverse hr
  | cons c t =>
    have hc : l.getLast? = some c := by
      rw [← List.head?_reverse, hr]; rfl
    rw [List.dropWhile_cons, if_neg (by simpa using h c hc)]
    rw [← hr, List.reverse_reverse]

theorem dirnameList_append {a : List Char} (b : List Char) (hb : b ≠ [])
    (hlast : ∀ c, b.getLast? = some c → c ≠ '/') (h : '/' ∉ a) :
    dirnameList (b ++ '/' :: a) = b := by
  have hlastb : b.getLast hb ≠ '/' :=
    hlast _ (List.getLast?_eq_getLast b hb)
  unfold dirnameList dirnameHead
  rw [breakLast_append b h]
  have hall : ¬ (b ++ ['/']).all (fun c => decide (c = '/')) = true := by
    intro hall
    exact hlastb (by
      have := List.all_eq_true.mp hall (b.getLast hb)
        (by simp [List.getLast_mem hb])
      simpa using this)
  rw [if_pos ⟨by simp, by simpa using hall⟩]
  rw [rstripSlashes_append_slash, rstripSlashes_of_getLast hlast]

theorem toLower_eq_of_not_lower {t : Char}
    (ht : ¬ (97 ≤ Char.toNat t ∧ Char.toNat t ≤ 122)) {c : Char}
    (heq : Char.toLower c = t) : c = t := by
  unfold Char.toLower at heq
  simp only at heq
  by_cases hcond : Char.toNat c ≥ 65 ∧ Char.toNat c ≤ 90
  · rw [if_pos hcond] at heq
    have hv : (Char.toNat c + 32).isValidChar := Or.inl (by omega)
    rw [Char.ofNat, dif_pos hv] at heq
    have h2 := congrArg Char.toNat heq
    have h4 : Char.toNat c + 32 = Char.toNat t := h2
    exact absurd ⟨by omega, by omega⟩ ht
  · rwa [if_neg hcond] at heq

theorem not_mem_map_toLower {t : Char}
    (ht : ¬ (97 ≤ Char.toNat t ∧ Char.toNat t ≤ 122)) {a : List Char}
    (h : t ∉ a) : t ∉ a.map Char.toLower := by
  intro hmem
  obtain ⟨c, hc, hceq⟩ := List.mem_map.mp hmem
  exact h (toLower_eq_of_not_lower ht hceq ▸ hc)

theorem dot_not_lower : ¬ (97 ≤ Char.toNat '.' ∧ Char.toNat '.' ≤ 122) := by decide

theorem slash_not_lower : ¬ (97 ≤ Char.toNat '/' ∧ Char.toNat '/' ≤ 122) := by decide

theorem splitextList_snd_shape (l : List Char) :
    (splitextList l).2 = [] ∨
      ∃ a, (splitextList l).2 = '.' :: a ∧ '.' ∉ a ∧ '/' ∉ a := by
  unfold splitextList
  cases hb : breakLast '.' l with
  | none => simp
  | some p =>
    obtain ⟨b, a⟩ := p
    obtain ⟨-, hna⟩ := breakLast_spec hb
    by_cases hs : '/' ∈ a
    · simp [hs]
    · by_cases hany : ((basenameList b).any fun c => decide (c ≠ '.')) = true
      · simp only [if_neg hs, if_pos hany]
        exact Or.inr ⟨a, rfl, hna, hs⟩
      · simp only [if_neg hs, if_neg hany]
        simp

theorem splitextList_snd_append {a : List Char} (b : List Char)
    (h : '/' ∉ a) :
    (splitextList (b ++ '/' :: a)).2 = (splitextList a).2 := by
  cases hba : breakLast '.' a with
  | none =>
    have hnd : '.' ∉ a := mem_of_breakLast_eq_none hba
    have hkey : breakLast '.' (b ++ '/' :: a)
        = (breakLast '.' (b ++ ['/'])).map (fun p => (p.1, p.2 ++ a)) := by
      have h2 : b ++ '/' :: a = (b ++ ['/']) ++ a := by simp
      rw [h2, breakLast_append_no_mem _ hnd]
    unfold splitextList
    rw [hkey, hba]
    cases hbb : breakLast '.' (b ++ ['/']) with
    | none => simp
    | some p =>
      obtain ⟨b1, a1⟩ := p
      obtain ⟨heq, hna1⟩ := breakLast_spec hbb
      have hsl : '/' ∈ a1 := by
        have hl : (b ++ ['/']).getLast? = some '/' := List.getLast?_concat b
        rw [heq] at hl
        cases a1 with
        | nil =>
          rw [List.getLast?_concat] at hl
          simp at hl
        | cons x t =>
          rw [List.getLast?_append_of_ne_nil _ (by simp)] at hl
          exact List.mem_of_getLast?_eq_some hl
      simp [hsl]
  | some p =>
    obtain ⟨a1, a2⟩ := p
    obtain ⟨heq, hna2⟩ := breakLast_spec hba
    have hsl1 : '/' ∉ a1 := fun hm => h (heq ▸ List.mem_append_left _ hm)
    have hsl2 : '/' ∉ a2 := fun hm => h (heq ▸ by simp [hm])
    have hwhole : b ++ '/' :: a = (b ++ '/' :: a1) ++ '.' :: a2 := by simp [heq]
    unfold splitextList
    rw [hwhole, breakLast_append _ hna2, hba]
    dsimp only
    rw [if_neg hsl2, if_neg hsl2,
      basenameList_append _ hsl1, basenameList_of_no_slash hsl1]
    by_cases hany : (a1.any fun c => decide (c ≠ '.')) = true
    · rw [if_pos hany, if_pos hany]
    · rw [if_neg hany, if_neg hany]
/-! ### Round-trip lemmas: marker paths written vs. marker paths checked -/

/-- The marker file NAME derived for a directory entry `name`:
`{base}_{ext}.txt`. -/
def markerName (name : String) : String :=
  (pySplitext name).1 ++ "_" ++ pyDropFirst (pyLower (pySplitext name).2) ++ ".txt"

/-- The dump file NAME derived for a directory entry `name`:
`{base}_{ext}_dump.txt`. -/
def dumpName (name : String) : String :=
  (pySplitext name).1 ++ "_" ++ pyDropFirst (pyLower (pySplitext name).2) ++ "_dump.txt"

theorem dirMarkerPath_eq (d name : String) :
    dirMarkerPath d name = pyJoin d (markerName name) := rfl

theorem toList_ne_nil {d : String} (hd1 : d ≠ "") : d.toList ≠ [] := by
  intro hnil
  exact hd1 (congrArg String.mk hnil)

theorem getLast_ne_slash_of_endsWithSlash {d : String}
    (h : endsWithSlash d = false) :
    ∀ c, d.toList.getLast? = some c → c ≠ '/' := by
  intro c hc
  unfold endsWithSlash at h
  rw [← List.head?_reverse] at hc
  cases hr : d.toList.reverse with
  | nil => rw [hr] at hc; simp at hc
  | cons x t =>
    rw [hr] at hc h
    simp only [List.head?] at hc
    obtain rfl : x = c := by injection hc
    simpa using h

theorem pyJoin_eq_append {d name : String} (hd1 : d ≠ "")
    (hd2 : endsWithSlash d = false) (hname : '/' ∉ name.toList) :
    pyJoin d name = String.mk (d.toList ++ '/' :: name.toList) := by
  unfold pyJoin
  rw [if_neg, if_neg]
  · apply congrArg String.mk (by simp [String.data_append])
  · simp [hd1, hd2]
  · intro hh
    cases hn : name.toList with
    | nil => rw [hn] at hh; simp at hh
    | cons x t =>
      rw [hn] at hh
      simp only [List.head?] at hh
      obtain rfl : x = '/' := by injection hh
      exact hname (hn ▸ List.mem_cons_self _ _)

theorem pyBasename_join {d name : String} (hd1 : d ≠ "")
    (hd2 : endsWithSlash d = false) (hname : '/' ∉ name.toList) :
    pyBasename (pyJoin d name) = name := by
  rw [pyJoin_eq_append hd1 hd2 hname]
  unfold pyBasename
  rw [show (String.mk (d.toList ++ '/' :: name.toList)).toList
      = d.toList ++ '/' :: name.toList from rfl,
    basenameList_append _ hname]
  rfl

theorem pyDirname_join {d name : String} (hd1 : d ≠ "")
    (hd2 : endsWithSlash d = false) (hname : '/' ∉ name.toList) :
    pyDirname (pyJoin d name) = d := by
  rw [pyJoin_eq_append hd1 hd2 hname]
  unfold pyDirname
  rw [show (String.mk (d.toList ++ '/' :: name.toList)).toList
      = d.toList ++ '/' :: name.toList from rfl,
    dirnameList_append _ (toList_ne_nil hd1)
      (getLast_ne_slash_of_endsWithSlash hd2) hname]
  rfl

theorem pySplitext_snd_join {d name : String} (hd1 : d ≠ "")
    (hd2 : endsWithSlash d = false) (hname : '/' ∉ name.toList) :
    (pySplitext (pyJoin d name)).2 = (pySplitext name).2 := by
  rw [pyJoin_eq_append hd1 hd2 hname]
  unfold pySplitext
  rw [show (String.mk (d.toList ++ '/' :: name.toList)).toList
      = d.toList ++ '/' :: name.toList from rfl]
  simp only
  rw [splitextList_snd_append _ hname]

theorem dropWhile_dot_of_not_mem {m : List Char} (h : '.' ∉ m) :
    m.dropWhile (fun c => c = '.') = m := by
  cases m with
  | nil => rfl
  | cons x t =>
    rw [List.dropWhile_cons, if_neg (by simp; intro hx; exact h (hx ▸ List.mem_cons_self _ _))]

/-- On an extension produced by `splitext`, Python's `.lstrip(".")`
(used in `media.py` line 111) and `[1:]` (used in `utils.py` and
`documents.py`) agree, also after `.lower()`. -/
theorem lstrip_eq_dropFirst_on_ext (p : String) :
    pyLstripDots (pyLower (pySplitext p).2) = pyDropFirst (pyLower (pySplitext p).2) := by
  rcases splitextList_snd_shape p.toList with hsh | ⟨a, hsh, hnd, -⟩
  · unfold pySplitext pyLstripDots pyDropFirst pyLower
    rw [show (splitextList p.toList).2 = [] from hsh]
    rfl
  · unfold pySplitext pyLstripDots pyDropFirst pyLower
    rw [show (splitextList p.toList).2 = '.' :: a from hsh]
    apply congrArg String.mk
    show List.dropWhile _ (List.map Char.toLower ('.' :: a)) = List.drop 1 (List.map Char.toLower ('.' :: a))
    rw [List.map_cons, show Char.toLower '.' = '.' from rfl, List.dropWhile_cons,
      if_pos (by simp), List.drop_succ_cons, List.drop_zero,
      dropWhile_dot_of_not_mem (not_mem_map_toLower dot_not_lower hnd)]

theorem mem_splitextList_fst {l : List Char} {x : Char}
    (h : x ∈ (splitextList l).1) : x ∈ l := by
  unfold splitextList at h
  cases hb : breakLast '.' l with
  | none => rw [hb] at h; exact h
  | some p =>
    obtain ⟨b, a⟩ := p
    obtain ⟨heq, -⟩ := breakLast_spec hb
    rw [hb] at h
    dsimp only at h
    by_cases hs : '/' ∈ a
    · rw [if_pos hs] at h; exact h
    · rw [if_neg hs] at h
      by_cases hany : ((basenameList b).any fun c => decide (c ≠ '.')) = true
      · rw [if_pos hany] at h
        exact heq ▸ List.mem_append_left _ h
      · rw [if_neg hany] at h; exact h

theorem mem_splitextList_snd {l : List Char} {x : Char}
    (h : x ∈ (splitextList l).2) : x ∈ l := by
  unfold splitextList at h
  cases hb : breakLast '.' l with
  | none => rw [hb] at h; simp at h
  | some p =>
    obtain ⟨b, a⟩ := p
    obtain ⟨heq, -⟩ := breakLast_spec hb
    rw [hb] at h
    dsimp only at h
    by_cases hs : '/' ∈ a
    · rw [if_pos hs] at h; simp at h
    · rw [if_neg hs] at h
      by_cases hany : ((basenameList b).any fun c => decide (c ≠ '.')) = true
      · rw [if_pos hany] at h
        rw [heq]
        rcases List.mem_cons.mp h with rfl | hx
        · simp
        · simp [hx]
      · rw [if_neg hany] at h; simp at h

/-- The marker path `process_audio_video_files` writes for input
`join(d, name)` is exactly the marker path directory mode of
`get_eligible_files` checks for `name`. -/
theorem avMarkerPath_join {d name : String} (hd1 : d ≠ "")
    (hd2 : endsWithSlash d = false) (hname : '/' ∉ name.toList) :
    avMarkerPath (pyJoin d name) = dirMarkerPath d name := by
  unfold avMarkerPath dirMarkerPath
  rw [lstrip_eq_dropFirst_on_ext, pyBasename_join hd1 hd2 hname,
    pyDirname_join hd1 hd2 hname, pySplitext_snd_join hd1 hd2 hname]

/-- The marker path `process_document_files` writes for input
`join(d, name)` is exactly the marker path directory mode of
`get_eligible_files` checks for `name`. -/
theorem docMarkerPath_join {d name : String} (hd1 : d ≠ "")
    (hd2 : endsWithSlash d = false) (hname : '/' ∉ name.toList) :
    docMarkerPath (pyJoin d name) = dirMarkerPath d name := by
  unfold docMarkerPath dirMarkerPath
  rw [pyBasename_join hd1 hd2 hname,
    pyDirname_join hd1 hd2 hname, pySplitext_snd_join hd1 hd2 hname]

theorem avDumpPath_join {d name : String} (hd1 : d ≠ "")
    (hd2 : endsWithSlash d = false) (hname : '/' ∉ name.toList) :
    avDumpPath (pyJoin d name) = pyJoin d (dumpName name) := by
  unfold avDumpPath dumpName
  rw [lstrip_eq_dropFirst_on_ext, pyBasename_join hd1 hd2 hname,
    pyDirname_join hd1 hd2 hname, pySplitext_snd_join hd1 hd2 hname]

theorem docDumpPath_join {d name : String} (hd1 : d ≠ "")
    (hd2 : endsWithSlash d = false) (hname : '/' ∉ name.toList) :
    docDumpPath (pyJoin d name) = pyJoin d (dumpName name) := by
  unfold docDumpPath dumpName
  rw [pyBasename_join hd1 hd2 hname,
    pyDirname_join hd1 hd2 hname, pySplitext_snd_join hd1 hd2 hname]

theorem no_slash_markerName {name : String} (hname : '/' ∉ name.toList) :
    '/' ∉ (markerName name).toList := by
  unfold markerName
  intro hm
  simp only [String.toList, String.data_append] at hm
  rcases List.mem_append.mp hm with hm | hm
  · rcases List.mem_append.mp hm with hm | hm
    · rcases List.mem_append.mp hm with hm | hm
      · exact hname (mem_splitextList_fst hm)
      · simp at hm
    · have : '/' ∈ (pyLower (pySplitext name).2).toList :=
        List.mem_of_mem_drop hm
      obtain ⟨c, hc, hceq⟩ := List.mem_map.mp this
      obtain rfl := toLower_eq_of_not_lower slash_not_lower hceq
      exact hname (mem_splitextList_snd hc)
  · simp at hm

theorem no_slash_dumpName {name : String} (hname : '/' ∉ name.toList) :
    '/' ∉ (dumpName name).toList := by
  unfold dumpName
  intro hm
  simp only [String.toList, String.data_append] at hm
  rcases List.mem_append.mp hm with hm | hm
  · rcases List.mem_append.mp hm with hm | hm
    · rcases List.mem_append.mp hm with hm | hm
      · exact hname (mem_splitextList_fst hm)
      · simp at hm
    · have : '/' ∈ (pyLower (pySplitext name).2).toList :=
        List.mem_of_mem_drop hm
      obtain ⟨c, hc, hceq⟩ := List.mem_map.mp this
      obtain rfl := toLower_eq_of_not_lower slash_not_lower hceq
      exact hname (mem_splitextList_snd hc)
  · simp at hm

theorem splitextList_append_txt {l : List Char} (hs : '/' ∉ l)
    (hd : ∃ c ∈ l, (c = '.') = False) :
    (splitextList (l ++ ['.', 't', 'x', 't'])).2 = ['.', 't', 'x', 't'] := by
  have h1 : l ++ ['.', 't', 'x', 't'] = l ++ '.' :: ['t', 'x', 't'] := rfl
  unfold splitextList
  rw [h1, breakLast_append l (by decide)]
  dsimp only
  rw [if_neg (by decide), basenameList_of_no_slash hs,
    if_pos (by
      obtain ⟨c, hc, hne⟩ := hd
      exact List.any_eq_true.mpr ⟨c, hc, by simp [hne]⟩)]

theorem toList_markerName (name : String) :
    (markerName name).toList =
      ((pySplitext name).1 ++ "_" ++ pyDropFirst (pyLower (pySplitext name).2)).toList
        ++ ['.', 't', 'x', 't'] := by
  unfold markerName
  simp [String.toList, String.data_append]

theorem toList_dumpName (name : String) :
    (dumpName name).toList =
      ((pySplitext name).1 ++ "_" ++ pyDropFirst (pyLower (pySplitext name).2)
        ++ "_dump").toList ++ ['.', 't', 'x', 't'] := by
  unfold dumpName
  simp [String.toList, String.data_append]

theorem no_slash_pre_markerName {name : String} (hname : '/' ∉ name.toList) :
    '/' ∉ ((pySplitext name).1 ++ "_" ++ pyDropFirst (pyLower (pySplitext name).2)).toList := by
  intro hm
  exact no_slash_markerName hname (by
    rw [toList_markerName]
    exact List.mem_append_left _ hm)

theorem extSupported_markerName {name : String} (hname : '/' ∉ name.toList) :
    extSupported (markerName name) = false := by
  have hext : (pySplitext (markerName name)).2 = String.mk ['.', 't', 'x', 't'] := by
    unfold pySplitext
    apply congrArg String.mk
    rw [show (markerName name).toList
        = ((pySplitext name).1 ++ "_" ++ pyDropFirst (pyLower (pySplitext name).2)).toList
          ++ ['.', 't', 'x', 't'] from toList_markerName name]
    apply splitextList_append_txt (no_slash_pre_markerName hname)
    refine ⟨'_', ?_, by decide⟩
    simp [String.toList, String.data_append]
  unfold extSupported
  rw [hext]
  decide

theorem no_slash_pre_dumpName {name : String} (hname : '/' ∉ name.toList) :
    '/' ∉ ((pySplitext name).1 ++ "_" ++ pyDropFirst (pyLower (pySplitext name).2)
      ++ "_dump").toList := by
  intro hm
  exact no_slash_dumpName hname (by
    rw [toList_dumpName]
    exact List.mem_append_left _ hm)

theorem extSupported_dumpName {name : String} (hname : '/' ∉ name.toList) :
    extSupported (dumpName name) = false := by
  have hext : (pySplitext (dumpName name)).2 = String.mk ['.', 't', 'x', 't'] := by
    unfold pySplitext
    apply congrArg String.mk
    rw [show (dumpName name).toList
        = ((pySplitext name).1 ++ "_" ++ pyDropFirst (pyLower (pySplitext name).2)
          ++ "_dump").toList ++ ['.', 't', 'x', 't'] from toList_dumpName name]
    apply splitextList_append_txt (no_slash_pre_dumpName hname)
    refine ⟨'_', ?_, by decide⟩
    simp [String.toList, String.data_append]
  unfold extSupported
  rw [hext]
  decide

theorem pyJoin_inj {d n m : String} (hd1 : d ≠ "") (hd2 : endsWithSlash d = false)
    (hn : '/' ∉ n.toList) (hm : '/' ∉ m.toList)
    (h : pyJoin d n = pyJoin d m) : n = m := by
  rw [pyJoin_eq_append hd1 hd2 hn, pyJoin_eq_append hd1 hd2 hm] at h
  have h2 : d.toList ++ '/' :: n.toList = d.toList ++ '/' :: m.toList :=
    congrArg String.data h
  have h3 : n.toList = m.toList := by simpa using h2
  have h4 := congrArg String.mk h3
  simpa using h4

theorem dirFS_listdir_self (d : String) (names : List String) :
    (dirFS d names).listdir d = names := by
  simp [dirFS]

theorem dirFS_pathExists_join {d : String} {names : List String}
    (hd1 : d ≠ "") (hd2 : endsWithSlash d = false)
    (hval : ∀ x ∈ names, '/' ∉ x.toList) {m : String} (hm : '/' ∉ m.toList) :
    (dirFS d names).pathExists (pyJoin d m) = true ↔ m ∈ names := by
  constructor
  · intro h
    obtain ⟨n, hn, hbeq⟩ := List.any_eq_true.mp h
    have heq : pyJoin d n = pyJoin d m := by simpa using hbeq
    exact pyJoin_inj hd1 hd2 (hval n hn) hm heq ▸ hn
  · intro h
    exact List.any_eq_true.mpr ⟨m, h, by simp⟩

theorem dirEligLoop_eq (fs : FS) (d : String) (l : List String) :
    dirEligLoop fs d l =
      (l.filter (fun n => ! fs.pathExists (dirMarkerPath d n))).map (pyJoin d) := by
  induction l with
  | nil => rfl
  | cons n rest ih =>
    unfold dirEligLoop
    by_cases h : fs.pathExists (dirMarkerPath d n) = true
    · rw [if_neg (by simp [h]), List.filter_cons, if_neg (by simp [h]), ih]
    · rw [if_pos (by simp at h; simp [h]), List.filter_cons,
        if_pos (by simp at h; simp [h]), List.map_cons, ih]

theorem getEligibleDir_eq (fs : FS) (d : String) :
    getEligibleDir fs d =
      (((fs.listdir d).filter extSupported).filter
        (fun n => ! fs.pathExists (dirMarkerPath d n))).map (pyJoin d) := by
  unfold getEligibleDir
  rw [dirEligLoop_eq]

theorem dirEligLoop_eq_nil (fs : FS) (d : String) (l : List String)
    (h : ∀ n ∈ l, fs.pathExists (dirMarkerPath d n) = true) :
    dirEligLoop fs d l = [] := by
  rw [dirEligLoop_eq]
  rw [List.filter_eq_nil_iff.mpr (by intro n hn; simp [h n hn])]
  rfl

/-- `categorize_files` membership: an audio/video-extension file lands in
the first component. -/
theorem categorize_mem_av {fp : String} {l : List String} (hmem : fp ∈ l)
    (hav : audio_video_extensions.contains (pyLower (pySplitext fp).2) = true) :
    fp ∈ (categorize_files l).1 := by
  induction l with
  | nil => simp at hmem
  | cons x rest ih =>
    unfold categorize_files
    dsimp only
    rcases List.mem_cons.mp hmem with rfl | hx
    · rw [if_pos (by simpa using hav)]
      exact List.mem_cons_self _ _
    · by_cases hxav : audio_video_extensions.contains (pyLower (pySplitext x).2) = true
      · rw [if_pos (by simpa using hxav)]
        exact List.mem_cons_of_mem _ (ih hx)
      · rw [if_neg (by simpa using hxav)]
        by_cases hxdoc : document_image_extensions.contains (pyLower (pySplitext x).2) = true
        · rw [if_pos (by simpa using hxdoc)]
          exact ih hx
        · rw [if_neg (by simpa using hxdoc)]
          exact ih hx

/-- `categorize_files` membership: a document/image-extension file (that is
not audio/video) lands in the second component. -/
theorem categorize_mem_doc {fp : String} {l : List String} (hmem : fp ∈ l)
    (hnav : audio_video_extensions.contains (pyLower (pySplitext fp).2) = false)
    (hdoc : document_image_extensions.contains (pyLower (pySplitext fp).2) = true) :
    fp ∈ (categorize_files l).2 := by
  induction l with
  | nil => simp at hmem
  | cons x rest ih =>
    unfold categorize_files
    dsimp only
    rcases List.mem_cons.mp hmem with rfl | hx
    · rw [if_neg (by rw [hnav]; decide), if_pos (by simpa using hdoc)]
      exact List.mem_cons_self _ _
    · by_cases hxav : audio_video_extensions.contains (pyLower (pySplitext x).2) = true
      · rw [if_pos (by simpa using hxav)]
        exact ih hx
      · rw [if_neg (by simpa using hxav)]
        by_cases hxdoc : document_image_extensions.contains (pyLower (pySplitext x).2) = true
        · rw [if_pos (by simpa using hxdoc)]
          exact List.mem_cons_of_mem _ (ih hx)
        · rw [if_neg (by simpa using hxdoc)]
          exact ih hx

theorem categorize_fst_subset {l : List String} : (categorize_files l).1 ⊆ l := by
  induction l with
  | nil => simp [categorize_files]
  | cons x rest ih =>
    unfold categorize_files
    dsimp only
    intro y hy
    by_cases h1 : audio_video_extensions.contains (pyLower (pySplitext x).2) = true
    · rw [if_pos (by simpa using h1)] at hy
      rcases List.mem_cons.mp hy with rfl | hy2
      · exact List.mem_cons_self _ _
      · exact List.mem_cons_of_mem _ (ih hy2)
    · rw [if_neg (by simpa using h1)] at hy
      by_cases h2 : document_image_extensions.contains (pyLower (pySplitext x).2) = true
      · rw [if_pos (by simpa using h2)] at hy
        exact List.mem_cons_of_mem _ (ih hy)
      · rw [if_neg (by simpa using h2)] at hy
        exact List.mem_cons_of_mem _ (ih hy)

theorem categorize_snd_subset {l : List String} : (categorize_files l).2 ⊆ l := by
  induction l with
  | nil => simp [categorize_files]
  | cons x rest ih =>
    unfold categorize_files
    dsimp only
    intro y hy
    by_cases h1 : audio_video_extensions.contains (pyLower (pySplitext x).2) = true
    · rw [if_pos (by simpa using h1)] at hy
      exact List.mem_cons_of_mem _ (ih hy)
    · rw [if_neg (by simpa using h1)] at hy
      by_cases h2 : document_image_extensions.contains (pyLower (pySplitext x).2) = true
      · rw [if_pos (by simpa using h2)] at hy
        rcases List.mem_cons.mp hy with rfl | hy2
        · exact List.mem_cons_self _ _
        · exact List.mem_cons_of_mem _ (ih hy2)
      · rw [if_neg (by simpa using h2)] at hy
        exact List.mem_cons_of_mem _ (ih hy)

theorem mem_elig_decomp {d : String} {names : List String} {fp : String}
    (h : fp ∈ getEligibleDir (dirFS d names) d) :
    ∃ n, n ∈ names ∧ extSupported n = true ∧
      (dirFS d names).pathExists (dirMarkerPath d n) = false ∧ fp = pyJoin d n := by
  rw [getEligibleDir_eq, dirFS_listdir_self] at h
  obtain ⟨n, hn, rfl⟩ := List.mem_map.mp h
  obtain ⟨hn2, hmark⟩ := List.mem_filter.mp hn
  obtain ⟨hn3, hsupp⟩ := List.mem_filter.mp hn2
  exact ⟨n, hn3, hsupp, by simpa using hmark, rfl⟩

theorem processOneAV_path {fp : String} {fmt ss es} {dur est el : ℚ}
    {outc : Except String String} {op : FileOp}
    (h : op ∈ processOneAV fp fmt ss dur est outc es el) :
    op.path = avMarkerPath fp ∨ op.path = avDumpPath fp := by
  have hm : op.path ∈ (processOneAV fp fmt ss dur est outc es el).map FileOp.path :=
    List.mem_map_of_mem _ h
  rcases outc with e | t
  · rw [show (processOneAV fp fmt ss dur est (.error e) es el).map FileOp.path
        = [avDumpPath fp, avDumpPath fp, avDumpPath fp] from rfl] at hm
    simp only [List.mem_cons, List.not_mem_nil, or_false, or_self] at hm
    exact Or.inr hm
  · rw [show (processOneAV fp fmt ss dur est (.ok t) es el).map FileOp.path
        = [avDumpPath fp, avDumpPath fp, avMarkerPath fp, avDumpPath fp] from rfl] at hm
    simp only [List.mem_cons, List.not_mem_nil, or_false] at hm
    rcases hm with hm | hm | hm | hm
    · exact Or.inr hm
    · exact Or.inr hm
    · exact Or.inl hm
    · exact Or.inr hm

theorem processOneDoc_path {fp : String} {fmt ss es} {el : ℚ}
    {outc : Except String String} {op : FileOp}
    (h : op ∈ processOneDoc fp fmt ss outc es el) :
    op.path = docMarkerPath fp ∨ op.path = docDumpPath fp := by
  have hm : op.path ∈ (processOneDoc fp fmt ss outc es el).map FileOp.path :=
    List.mem_map_of_mem _ h
  rcases outc with e | t
  · rw [show (processOneDoc fp fmt ss (.error e) es el).map FileOp.path
        = [docDumpPath fp, docDumpPath fp, docDumpPath fp] from rfl] at hm
    simp only [List.mem_cons, List.not_mem_nil, or_false, or_self] at hm
    exact Or.inr hm
  · rw [show (processOneDoc fp fmt ss (.ok t) es el).map FileOp.path
        = [docDumpPath fp, docDumpPath fp, docMarkerPath fp, docDumpPath fp] from rfl] at hm
    simp only [List.mem_cons, List.not_mem_nil, or_false] at hm
    rcases hm with hm | hm | hm | hm
    · exact Or.inr hm
    · exact Or.inr hm
    · exact Or.inl hm
    · exact Or.inr hm

theorem batchOps_path {env : BatchEnv} {d : String} {names : List String}
    (hd1 : d ≠ "") (hd2 : endsWithSlash d = false)
    (hval : ∀ x ∈ names, '/' ∉ x.toList) :
    ∀ op ∈ batchOps env (dirFS d names) d,
      ∃ n, n ∈ names ∧ extSupported n = true ∧
        (op.path = pyJoin d (markerName n) ∨ op.path = pyJoin d (dumpName n)) := by
  intro op hop
  unfold batchOps at hop
  dsimp only at hop
  rcases List.mem_append.mp hop with hop | hop
  · obtain ⟨blk, hblk, hopin⟩ := List.mem_flatten.mp hop
    obtain ⟨fp, hfp, rfl⟩ := List.mem_map.mp hblk
    obtain ⟨n, hn, hsupp, -, rfl⟩ := mem_elig_decomp (categorize_fst_subset hfp)
    refine ⟨n, hn, hsupp, ?_⟩
    rcases processOneAV_path hopin with hpath | hpath
    · rw [hpath, avMarkerPath_join hd1 hd2 (hval n hn)]
      exact Or.inl (dirMarkerPath_eq d n)
    · rw [hpath, avDumpPath_join hd1 hd2 (hval n hn)]
      exact Or.inr rfl
  · obtain ⟨blk, hblk, hopin⟩ := List.mem_flatten.mp hop
    obtain ⟨fp, hfp, rfl⟩ := List.mem_map.mp hblk
    obtain ⟨n, hn, hsupp, -, rfl⟩ := mem_elig_decomp (categorize_snd_subset hfp)
    refine ⟨n, hn, hsupp, ?_⟩
    rcases processOneDoc_path hopin with hpath | hpath
    · rw [hpath, docMarkerPath_join hd1 hd2 (hval n hn)]
      exact Or.inl (dirMarkerPath_eq d n)
    · rw [hpath, docDumpPath_join hd1 hd2 (hval n hn)]
      exact Or.inr rfl

theorem supported_split {s : String}
    (h : supported_extensions.contains s = true)
    (hnav : audio_video_extensions.contains s = false) :
    document_image_extensions.contains s = true := by
  have hmem : s ∈ supported_extensions := by simpa using h
  rcases List.mem_append.mp hmem with hm | hm
  · exact absurd hm (by simpa using hnav)
  · simpa using hm

theorem marker_exists_after {env : BatchEnv} {d : String} {names : List String}
    (hd1 : d ≠ "") (hd2 : endsWithSlash d = false)
    (hval : ∀ x ∈ names, '/' ∉ x.toList)
    (htr : ∀ fp ∈ (categorize_files (getEligibleDir (dirFS d names) d)).1,
      (env.transcribe fp).isOk = true) :
    ∀ n ∈ names, extSupported n = true →
      (fsAfterOps (dirFS d names) (batchOps env (dirFS d names) d)).pathExists
        (dirMarkerPath d n) = true := by
  intro n hn hsupp
  show ((dirFS d names).pathExists (dirMarkerPath d n)
    || (batchOps env (dirFS d names) d).any
        (fun op => op.path == dirMarkerPath d n)) = true
  by_cases hm : (dirFS d names).pathExists (dirMarkerPath d n) = true
  · simp [hm]
  · have hmf : (dirFS d names).pathExists (dirMarkerPath d n) = false := by
      simpa using hm
    have hfp : pyJoin d n ∈ getEligibleDir (dirFS d names) d := by
      rw [getEligibleDir_eq, dirFS_listdir_self]
      exact List.mem_map_of_mem _ (List.mem_filter.mpr
        ⟨List.mem_filter.mpr ⟨hn, hsupp⟩, by simp [hmf]⟩)
    have hext : pyLower (pySplitext (pyJoin d n)).2 = pyLower (pySplitext n).2 := by
      rw [pySplitext_snd_join hd1 hd2 (hval n hn)]
    apply Bool.or_eq_true_iff.mpr
    apply Or.inr
    by_cases hav : audio_video_extensions.contains (pyLower (pySplitext (pyJoin d n)).2) = true
    · have hfpav := categorize_mem_av hfp hav
      have hok := htr _ hfpav
      obtain ⟨t, ht⟩ : ∃ t, env.transcribe (pyJoin d n) = .ok t := by
        cases henv : env.transcribe (pyJoin d n) with
        | error e => rw [henv] at hok; simp [Except.isOk, Except.toBool] at hok
        | ok t => exact ⟨t, rfl⟩
      have hop : FileOp.write (avMarkerPath (pyJoin d n)) t ∈
          processOneAV (pyJoin d n) env.fmt (env.startStamp (pyJoin d n))
            (env.duration (pyJoin d n)) (env.est (pyJoin d n))
            (env.transcribe (pyJoin d n)) (env.endStamp (pyJoin d n))
            (env.elapsed (pyJoin d n)) := by
        rw [ht]
        unfold processOneAV
        simp
      have hopb : FileOp.write (avMarkerPath (pyJoin d n)) t ∈
          batchOps env (dirFS d names) d := by
        unfold batchOps
        dsimp only
        exact List.mem_append_left _ (List.mem_flatten.mpr
          ⟨_, List.mem_map_of_mem _ hfpav, hop⟩)
      exact List.any_eq_true.mpr ⟨_, hopb, by
        simp only [FileOp.path]
        rw [avMarkerPath_join hd1 hd2 (hval n hn)]
        simp⟩
    · have hdoc := supported_split
        (show supported_extensions.contains (pyLower (pySplitext (pyJoin d n)).2) = true by
          rw [hext]; exact hsupp)
        (by simpa using hav)
      have hfpdoc := categorize_mem_doc hfp (by simpa using hav) hdoc
      have hop : FileOp.write (docMarkerPath (pyJoin d n)) (env.ocrText (pyJoin d n)) ∈
          processOneDoc (pyJoin d n) env.fmt (env.startStamp (pyJoin d n))
            (.ok (env.ocrText (pyJoin d n))) (env.endStamp (pyJoin d n))
            (env.elapsed (pyJoin d n)) := by
        unfold processOneDoc
        simp
      have hopb : FileOp.write (docMarkerPath (pyJoin d n)) (env.ocrText (pyJoin d n)) ∈
          batchOps env (dirFS d names) d := by
        unfold batchOps
        dsimp only
        exact List.mem_append_right _ (List.mem_flatten.mpr
          ⟨_, List.mem_map_of_mem _ hfpdoc, hop⟩)
      exact List.any_eq_true.mpr ⟨_, hopb, by
        simp only [FileOp.path]
        rw [docMarkerPath_join hd1 hd2 (hval n hn)]
        simp⟩

theorem newNames_unsupported {env : BatchEnv} {d : String} {names : List String}
    (hd1 : d ≠ "") (hd2 : endsWithSlash d = false)
    (hval : ∀ x ∈ names, '/' ∉ x.toList) :
    ∀ b ∈ (batchOps env (dirFS d names) d).filterMap
      (fun op => if pyDirname op.path == d then some (pyBasename op.path) else none),
      extSupported b = false := by
  intro b hb
  obtain ⟨op, hop, hsome⟩ := List.mem_filterMap.mp hb
  have hbeq : b = pyBasename op.path := by
    by_cases hc : (pyDirname op.path == d) = true
    · rw [if_pos hc] at hsome
      exact (Option.some.injEq _ _ ▸ hsome).symm
    · rw [if_neg hc] at hsome
      simp at hsome
  obtain ⟨n, hn, -, hpath | hpath⟩ := batchOps_path hd1 hd2 hval op hop
  · rw [hbeq, hpath, pyBasename_join hd1 hd2 (no_slash_markerName (hval n hn))]
    exact extSupported_markerName (hval n hn)
  · rw [hbeq, hpath, pyBasename_join hd1 hd2 (no_slash_dumpName (hval n hn))]
    exact extSupported_dumpName (hval n hn)

/-- Claim C1.  Over a directory `d` of slash-free file names, the marker
path each pipeline writes for an eligible file `join(d, name)` is exactly
the marker path directory-mode `get_eligible_files` checks for `name`;
consequently, provided every transcription of the first run returned
(rather than raised), a second run over the same directory finds no
eligible file and performs zero transcription/OCR invocations. -/
theorem claim_C1 (env : BatchEnv) (d : String) (names : List String)
    (hd1 : d ≠ "") (hd2 : endsWithSlash d = false)
    (hval : ∀ x ∈ names, '/' ∉ x.toList)
    (htr : ∀ fp ∈ (categorize_files (getEligibleDir (dirFS d names) d)).1,
      (env.transcribe fp).isOk = true) :
    (∀ n ∈ names,
      avMarkerPath (pyJoin d n) = dirMarkerPath d n ∧
      docMarkerPath (pyJoin d n) = dirMarkerPath d n) ∧
    getEligibleDir (fsAfterOps (dirFS d names) (batchOps env (dirFS d names) d)) d = [] ∧
    batchInvocations (fsAfterOps (dirFS d names) (batchOps env (dirFS d names) d)) d = 0 := by
  have hmain :
      getEligibleDir (fsAfterOps (dirFS d names) (batchOps env (dirFS d names) d)) d = [] := by
    unfold getEligibleDir
    have hlist : (fsAfterOps (dirFS d names) (batchOps env (dirFS d names) d)).listdir d
        = names ++ (batchOps env (dirFS d names) d).filterMap
            (fun op => if pyDirname op.path == d then some (pyBasename op.path) else none) := by
      show (dirFS d names).listdir d ++ _ = _
      rw [dirFS_listdir_self]
    have hnew : ((batchOps env (dirFS d names) d).filterMap
        (fun op => if pyDirname op.path == d then some (pyBasename op.path) else none)).filter
          extSupported = [] :=
      List.filter_eq_nil_iff.mpr
        (fun b hb => by simp [newNames_unsupported hd1 hd2 hval b hb])
    rw [hlist, List.filter_append, hnew, List.append_nil]
    apply dirEligLoop_eq_nil
    intro n hnf
    obtain ⟨hn, hsupp⟩ := List.mem_filter.mp hnf
    exact marker_exists_after hd1 hd2 hval htr n hn hsupp
  refine ⟨?_, hmain, ?_⟩
  · intro n hn
    exact ⟨avMarkerPath_join hd1 hd2 (hval n hn),
      docMarkerPath_join hd1 hd2 (hval n hn)⟩
  · unfold batchInvocations
    rw [hmain]
    rfl

/-- A concrete environment for witnesses: transcription always succeeds
with text `"T"`, OCR always returns `"O"`. -/
def envW : BatchEnv :=
  ⟨fun _ => "", fun _ => "S", fun _ => "E", fun _ => 0, fun _ => 0,
   fun _ => 0, fun _ => .ok "T", fun _ => "O"⟩

/-- Witness for claim C1: a directory `"m"` holding `a.mp3` and `b.pdf`;
after one batch the second scan is empty. -/
theorem claim_C1_witness :
    (("m" : String) ≠ "" ∧ endsWithSlash "m" = false ∧
      (∀ x ∈ (["a.mp3", "b.pdf"] : List String), '/' ∉ x.toList) ∧
      (∀ fp ∈ (categorize_files (getEligibleDir (dirFS "m" ["a.mp3", "b.pdf"]) "m")).1,
        (envW.transcribe fp).isOk = true)) ∧
    getEligibleDir (fsAfterOps (dirFS "m" ["a.mp3", "b.pdf"])
      (batchOps envW (dirFS "m" ["a.mp3", "b.pdf"]) "m")) "m" = [] ∧
    batchInvocations (fsAfterOps (dirFS "m" ["a.mp3", "b.pdf"])
      (batchOps envW (dirFS "m" ["a.mp3", "b.pdf"]) "m")) "m" = 0 :=
  ⟨⟨by decide, by decide, by decide, by decide⟩,
   (claim_C1 envW "m" ["a.mp3", "b.pdf"] (by decide) (by decide)
     (by decide) (by decide)).2⟩

/-! ## Claim C3: file-list mode of `get_eligible_files` -/

/-- The Boolean condition under which file-list mode keeps a path:
it exists, its lower-cased extension is supported, and its marker file
does not exist. -/
def keepB (fs : FS) (p : String) : Bool :=
  fs.pathExists p &&
    supported_extensions.contains (pyLower (pySplitext p).2) &&
    ! fs.pathExists (listMarkerPath p)

theorem eligStep_fst (fs : FS) (verbose : Bool) (p : String) :
    (eligStep fs verbose p).1 = if keepB fs p then [p] else [] := by
  unfold eligStep keepB
  by_cases h1 : fs.pathExists p = true
  · rw [if_neg (by simp [h1])]
    by_cases h2 : supported_extensions.contains (pyLower (pySplitext p).2) = true
    · have h2m : pyLower (pySplitext p).2 ∈ supported_extensions := by simpa using h2
      rw [if_neg (by simpa using h2)]
      by_cases h3 : fs.pathExists (listMarkerPath p) = true
      · rw [if_neg (by simp [h3]), if_neg (by simp [keepB, h1, h2m, h3])]
      · rw [if_pos (by simp at h3; simp [h3]),
          if_pos (by simp at h3; simp [keepB, h1, h2m, h3])]
    · rw [if_pos (by simp at h2; simp [h2])]
      by_cases h4 : pyLower (pySplitext p).2 = ".txt"
      · rw [if_pos h4, if_neg (by simp at h2; simp [h2])]
      · rw [if_neg h4]
        by_cases h5 : verbose = true
        · rw [if_pos h5, if_neg (by simp at h2; simp [h2])]
        · rw [if_neg h5, if_neg (by simp at h2; simp [h2])]
  · rw [if_pos (by simp at h1; simp [h1]), if_neg (by simp at h1; simp [h1])]

theorem getEligibleList_fst (fs : FS) (verbose : Bool) (L : List String) :
    (getEligibleList fs verbose L).1 = L.filter (keepB fs) := by
  induction L with
  | nil => rfl
  | cons p rest ih =>
    unfold getEligibleList
    dsimp only
    rw [eligStep_fst, List.filter_cons, ih]
    by_cases h : keepB fs p = true
    · rw [if_pos h, if_pos h]
      rfl
    · rw [if_neg h, if_neg (by simpa using h)]
      rfl

/-- Claim C3.  In file-list mode: a non-existing path never appears in
the output; an existing `.txt` path is dropped with no log record,
regardless of verbosity; an existing path with an unsupported
non-`.txt` extension is dropped, a warning being emitted iff
`verbose`; an existing supported path whose marker exists is dropped
with an info record; and the output is a subsequence of the input list
(hence in input order). -/
theorem claim_C3 (fs : FS) (verbose : Bool) (L : List String) :
    (∀ p, fs.pathExists p = false → p ∉ (getEligibleList fs verbose L).1) ∧
    (∀ p, fs.pathExists p = true → pyLower (pySplitext p).2 = ".txt" →
      eligStep fs verbose p = ([], []) ∧ p ∉ (getEligibleList fs verbose L).1) ∧
    (∀ p, fs.pathExists p = true →
      supported_extensions.contains (pyLower (pySplitext p).2) = false →
      pyLower (pySplitext p).2 ≠ ".txt" →
      eligStep fs verbose p =
        ([], if verbose then [.warning ("Unsupported file type: " ++ p)] else []) ∧
      p ∉ (getEligibleList fs verbose L).1) ∧
    (∀ p, fs.pathExists p = true →
      supported_extensions.contains (pyLower (pySplitext p).2) = true →
      fs.pathExists (listMarkerPath p) = true →
      eligStep fs verbose p = ([], [.info ("Skipping " ++ p ++ " - already processed")]) ∧
      p ∉ (getEligibleList fs verbose L).1) ∧
    List.Sublist (getEligibleList fs verbose L).1 L := by
  have hmem : ∀ p, keepB fs p = false → p ∉ (getEligibleList fs verbose L).1 := by
    intro p hk hmem
    rw [getEligibleList_fst] at hmem
    have := (List.mem_filter.mp hmem).2
    rw [hk] at this
    cases this
  refine ⟨?_, ?_, ?_, ?_, ?_⟩
  · intro p hp
    exact hmem p (by simp [keepB, hp])
  · intro p hp hext
    have htxt : supported_extensions.contains (pyLower (pySplitext p).2) = false := by
      rw [hext]; decide
    have htxtm : pyLower (pySplitext p).2 ∉ supported_extensions := by simpa using htxt
    refine ⟨?_, hmem p (by simp [keepB]; intro _ hmm2; exact absurd hmm2 htxtm)⟩
    unfold eligStep
    rw [if_neg (by simp [hp]), if_pos (by simpa using htxtm), if_pos hext]
  · intro p hp hsupp htxt
    have hsuppm : pyLower (pySplitext p).2 ∉ supported_extensions := by simpa using hsupp
    refine ⟨?_, hmem p (by simp [keepB]; intro _ hmm2; exact absurd hmm2 hsuppm)⟩
    unfold eligStep
    rw [if_neg (by simp [hp]), if_pos (by simpa using hsuppm), if_neg htxt]
    by_cases hv : verbose = true
    · rw [if_pos hv, if_pos hv]
    · rw [if_neg hv, if_neg hv]
  · intro p hp hsupp hmark
    have hsuppm : pyLower (pySplitext p).2 ∈ supported_extensions := by simpa using hsupp
    refine ⟨?_, hmem p (by simp [keepB, hmark])⟩
    unfold eligStep
    rw [if_neg (by simp [hp]), if_neg (by simpa using hsuppm), if_neg (by simp [hmark])]
  · rw [getEligibleList_fst]
    exact List.filter_sublist L

/-- A concrete file-list filesystem for witnesses. -/
def fsW : FS :=
  ⟨fun p => (["a.mp3", "n.txt", "u.xyz", "done.mp3", "done_mp3.txt"] : List String).contains p,
   fun _ => []⟩

/-- A concrete input list for witnesses. -/
def exListW : List String := ["a.mp3", "gone.mp3", "n.txt", "u.xyz", "done.mp3"]

/-- Witness for claim C3: a list containing a missing file, a `.txt`
file, an unsupported file, an already-processed file and an eligible
file. -/
theorem claim_C3_witness :
    ((fsW.pathExists "gone.mp3" = false ∧
        "gone.mp3" ∉ (getEligibleList fsW true exListW).1) ∧
      (fsW.pathExists "n.txt" = true ∧ pyLower (pySplitext "n.txt").2 = ".txt" ∧
        eligStep fsW true "n.txt" = ([], [])) ∧
      (fsW.pathExists "u.xyz" = true ∧
        eligStep fsW true "u.xyz" = ([], [.warning ("Unsupported file type: " ++ "u.xyz")]) ∧
        eligStep fsW false "u.xyz" = ([], [])) ∧
      (fsW.pathExists "done.mp3" = true ∧
        eligStep fsW true "done.mp3" =
          ([], [.info ("Skipping " ++ "done.mp3" ++ " - already processed")]))) ∧
    List.Sublist (getEligibleList fsW true exListW).1 exListW :=
  ⟨⟨⟨by decide, (claim_C3 fsW true exListW).1 "gone.mp3" (by decide)⟩,
    ⟨by decide, by decide,
      ((claim_C3 fsW true exListW).2.1 "n.txt" (by decide) (by decide)).1⟩,
    ⟨by decide,
      ((claim_C3 fsW true exListW).2.2.1 "u.xyz" (by decide) (by decide) (by decide)).1,
      ((claim_C3 fsW false exListW).2.2.1 "u.xyz" (by decide) (by decide) (by decide)).1⟩,
    ⟨by decide,
      ((claim_C3 fsW true exListW).2.2.2.1 "done.mp3" (by decide) (by decide) (by decide)).1⟩⟩,
   (claim_C3 fsW true exListW).2.2.2.2⟩

/-! ## Claim C10: both sources falsy -/

/-- Claim C10.  With neither a truthy `input_dir` nor a truthy
`file_list` (covering `None` and `""`/`[]`), `get_eligible_files`
returns the empty result; the result does not depend on the filesystem,
so the filesystem is never consulted. -/
theorem claim_C10 (fs fs' : FS) (input_dir : Option String)
    (file_list : Option (List String)) (verbose : Bool)
    (hd : strTruthy input_dir = false) (hl : listTruthy file_list = false) :
    get_eligible_files fs input_dir file_list verbose = ([], []) ∧
    get_eligible_files fs input_dir file_list verbose =
      get_eligible_files fs' input_dir file_list verbose := by
  unfold get_eligible_files
  rw [if_neg (by simp [hd]), if_neg (by simp [hl]),
    if_neg (by simp [hd]), if_neg (by simp [hl])]
  exact ⟨rfl, rfl⟩

/-- Witness for claim C10 at `input_dir = None`, `file_list = []`. -/
theorem claim_C10_witness :
    strTruthy none = false ∧ listTruthy (some []) = false ∧
    get_eligible_files fsW none (some []) true = ([], []) :=
  ⟨by decide, by decide,
   (claim_C10 fsW fsW none (some []) true (by decide) (by decide)).1⟩

/-! ## Claim C7: `estimate_processing_time` coefficients -/

/-- Counterexample to claim C7 as stated: the intercepts in the code are
`120.2099` and `40.9230` (`media.py` lines 51, 53), not the `120.21`
and `40.92` of the claim; at duration `0` the returned values differ
from the claimed ones. -/
theorem claim_C7_counterexample :
    estimate_processing_time ⟨true, true, some "NVIDIA GeForce RTX 4070"⟩ 0
        = 120.2099 ∧
      ¬ estimate_processing_time ⟨true, true, some "NVIDIA GeForce RTX 4070"⟩ 0
        = 120.21 ∧
    estimate_processing_time ⟨true, true, some "NVIDIA GeForce RTX 4060 Ti"⟩ 0
        = 40.9230 ∧
      ¬ estimate_processing_time ⟨true, true, some "NVIDIA GeForce RTX 4060 Ti"⟩ 0
        = 40.92 := by
  have h70 : estimate_processing_time ⟨true, true, some "NVIDIA GeForce RTX 4070"⟩ 0
      = 0.1894 * 0 + 120.2099 := by
    unfold estimate_processing_time
    rw [if_neg (by decide)]
    dsimp only
    rw [if_pos (by decide)]
  have h60 : estimate_processing_time ⟨true, true, some "NVIDIA GeForce RTX 4060 Ti"⟩ 0
      = 0.3162 * 0 + 40.9230 := by
    unfold estimate_processing_time
    rw [if_neg (by decide)]
    dsimp only
    rw [if_neg (by decide), if_pos (by decide)]
  refine ⟨by rw [h70]; norm_num, by rw [h70]; norm_num,
    by rw [h60]; norm_num, by rw [h60]; norm_num⟩

/-- Claim C7 as amended.  `estimate_processing_time` returns exactly `0`
when GPU or pynvml is unavailable, when the name query raises, or when
the name is unrecognized; a name containing `"RTX 4070"` yields
`0.1894*d + 120.2099`, and a name containing `"RTX 4060 Ti"` (but not
`"RTX 4070"`) yields `0.3162*d + 40.9230`. -/
theorem claim_C7_amended (sys : SysState) (d : ℚ) :
    ((sys.gpu_available = false ∨ sys.pynvml_available = false) →
      estimate_processing_time sys d = 0) ∧
    (sys.gpu_name = none → estimate_processing_time sys d = 0) ∧
    (∀ name, sys.gpu_name = some name →
      pyContains name "RTX 4070" = false → pyContains name "RTX 4060 Ti" = false →
      estimate_processing_time sys d = 0) ∧
    (∀ name, sys.gpu_available = true → sys.pynvml_available = true →
      sys.gpu_name = some name → pyContains name "RTX 4070" = true →
      estimate_processing_time sys d = 0.1894 * d + 120.2099) ∧
    (∀ name, sys.gpu_available = true → sys.pynvml_available = true →
      sys.gpu_name = some name → pyContains name "RTX 4070" = false →
      pyContains name "RTX 4060 Ti" = true →
      estimate_processing_time sys d = 0.3162 * d + 40.9230) := by
  obtain ⟨g, p, nm⟩ := sys
  refine ⟨?_, ?_, ?_, ?_, ?_⟩
  · rintro (rfl | rfl) <;> simp [estimate_processing_time]
  · rintro rfl
    unfold estimate_processing_time
    by_cases hgp : (g && p) = true
    · rw [if_neg (by simp [hgp])]
    · rw [if_pos (by simp_all)]
  · rintro name rfl h70 h60
    unfold estimate_processing_time
    by_cases hgp : (g && p) = true
    · rw [if_neg (by simp [hgp])]
      dsimp only
      rw [if_neg (by simp [h70]), if_neg (by simp [h60])]
    · rw [if_pos (by simp_all)]
  · rintro name rfl rfl rfl h70
    unfold estimate_processing_time
    rw [if_neg (by simp)]
    dsimp only
    rw [if_pos (by simp [h70])]
  · rintro name rfl rfl rfl h70 h60
    unfold estimate_processing_time
    rw [if_neg (by simp)]
    dsimp only
    rw [if_neg (by simp [h70]), if_pos (by simp [h60])]

/-- Witness for claim C7 (amended): no GPU, unrecognized name, and the
RTX 4070 affine formula at duration 300. -/
theorem claim_C7_amended_witness :
    estimate_processing_time ⟨false, false, none⟩ 300 = 0 ∧
    estimate_processing_time ⟨true, true, some "NVIDIA Unknown"⟩ 300 = 0 ∧
    estimate_processing_time ⟨true, true, some "NVIDIA GeForce RTX 4070"⟩ 300
      = 0.1894 * 300 + 120.2099 :=
  ⟨(claim_C7_amended ⟨false, false, none⟩ 300).1 (Or.inl rfl),
   (claim_C7_amended ⟨true, true, some "NVIDIA Unknown"⟩ 300).2.2.1
     "NVIDIA Unknown" rfl (by decide) (by decide),
   (claim_C7_amended ⟨true, true, some "NVIDIA GeForce RTX 4070"⟩ 300).2.2.2.1
     "NVIDIA GeForce RTX 4070" rfl rfl rfl (by decide)⟩

/-! ## Claim C4: the supported-extension set -/

/-- The audio/video enumeration of spec §6, transcribed from the spec's
words. -/
def specAudioVideoEnum : List String :=
  [".mp3", ".wav", ".aac", ".flac", ".ogg", ".m4a", ".wma",
   ".mp4", ".mov", ".avi", ".wmv", ".flv", ".mkv", ".webm",
   ".m4v", ".mpg", ".mpeg", ".3gp", ".3g2", ".rm", ".rmvb",
   ".vob", ".ts", ".ogv", ".f4v", ".divx"]

/-- The document/image enumeration of spec §6, transcribed from the
spec's words. -/
def specDocumentImageEnum : List String :=
  [".pdf", ".jpg", ".jpeg", ".png", ".bmp", ".tiff", ".tif",
   ".webp", ".gif", ".heic", ".heif"]

/-- Counterexample to claim C4 as stated: the audio/video list of
`utils.py` has 26 extensions, not 16 (so does the §6 enumeration the
claim says it matches). -/
theorem claim_C4_counterexample :
    audio_video_extensions.length = 26 ∧ ¬ audio_video_extensions.length = 16 := by
  decide

/-- Claim C4 as amended.  The supported set is the concatenation of the
fixed audio/video list (26 extensions) and the fixed document/image
list (11 extensions), both matching the §6 enumerations; membership is
tested on the `.lower()`-cased dot-extension, and every listed
extension is already lower-case. -/
theorem claim_C4_amended :
    supported_extensions = audio_video_extensions ++ document_image_extensions ∧
    audio_video_extensions.length = 26 ∧
    document_image_extensions.length = 11 ∧
    audio_video_extensions = specAudioVideoEnum ∧
    document_image_extensions = specDocumentImageEnum ∧
    (∀ f : String,
      extSupported f = supported_extensions.contains (pyLower (pySplitext f).2)) ∧
    audio_video_extensions.all (fun e => pyLower e == e) = true ∧
    document_image_extensions.all (fun e => pyLower e == e) = true :=
  ⟨rfl, by decide, by decide, rfl, rfl, fun _ => rfl, by decide, by decide⟩

/-! ## Claim C5: trapezoidal energy integration -/

theorem foldl_add_eq (g : ℕ → ℚ) (l : List ℕ) (a : ℚ) :
    l.foldl (fun acc i => acc + g i) a = a + (l.map g).sum := by
  induction l generalizing a with
  | nil => simp
  | cons x xs ih => simp [ih]; ring

theorem range_drop_foldl (g : ℕ → ℚ) (n : ℕ) :
    ((List.range n).drop 1).foldl (fun acc i => acc + g i) 0
      = ∑ i ∈ Finset.Ico 1 n, g i := by
  induction n with
  | zero => simp
  | succ m ih =>
    cases m with
    | zero => simp
    | succ k =>
      rw [List.range_succ, List.drop_append_of_le_length (by simp),
        List.foldl_append, foldl_add_eq,
        Finset.sum_Ico_succ_top (by omega), ← ih, foldl_add_eq]
      simp

/-- Claim C5.  On stop, when GPU usage and power were sampled, with more
than one power sample and matching series lengths, the logged energy is
the trapezoidal sum `Σ (p[i]+p[i-1])/2 * (t[i]-t[i-1])` over consecutive
samples, divided by 3600; for samples `[10, 20, 30]` at `[0, 5, 10]`
this equals `((10+20)/2*5 + (20+30)/2*5)/3600`. -/
theorem claim_C5 :
    (∀ timestamps usage power : List ℚ,
      usage ≠ [] → power ≠ [] → 1 < power.length →
      timestamps.length = power.length →
      gpuEnergyWh timestamps usage power =
        some ((∑ i ∈ Finset.Ico 1 timestamps.length,
          (power.getD i 0 + power.getD (i - 1) 0) / 2 *
            (timestamps.getD i 0 - timestamps.getD (i - 1) 0)) / 3600)) ∧
    gpuEnergyWh [0, 5, 10] [0, 0, 0] [10, 20, 30]
      = some (((10 + 20) / 2 * 5 + (20 + 30) / 2 * 5) / 3600) := by
  constructor
  · intro timestamps usage power hu hp hlen heq
    unfold gpuEnergyWh
    rw [if_pos hu, if_pos hp, if_pos ⟨hlen, heq⟩]
    unfold energy_joules
    rw [range_drop_foldl]
  · show gpuEnergyWh [0, 5, 10] [0, 0, 0] [10, 20, 30] = some _
    unfold gpuEnergyWh
    rw [if_pos (by simp), if_pos (by simp), if_pos (by constructor <;> simp)]
    unfold energy_joules
    norm_num [List.range, List.range.loop, List.foldl, List.getD]

/-- Witness for claim C5 applying the general statement at the spec's
concrete samples. -/
theorem claim_C5_witness :
    (([0, 0, 0] : List ℚ) ≠ [] ∧ ([10, 20, 30] : List ℚ) ≠ [] ∧
      1 < ([10, 20, 30] : List ℚ).length ∧
      ([0, 5, 10] : List ℚ).length = ([10, 20, 30] : List ℚ).length) ∧
    gpuEnergyWh [0, 5, 10] [0, 0, 0] [10, 20, 30] =
      some ((∑ i ∈ Finset.Ico 1 ([0, 5, 10] : List ℚ).length,
        (([10, 20, 30] : List ℚ).getD i 0 + ([10, 20, 30] : List ℚ).getD (i - 1) 0) / 2 *
          (([0, 5, 10] : List ℚ).getD i 0 - ([0, 5, 10] : List ℚ).getD (i - 1) 0)) / 3600) :=
  ⟨⟨by simp, by simp, by simp, by simp⟩,
   claim_C5.1 [0, 5, 10] [0, 0, 0] [10, 20, 30] (by simp) (by simp) (by simp) (by simp)⟩

/-! ## Claim C8: `process_document_with_ocr` error containment -/

/-- Claim C8.  If the OCR engine is unavailable the function returns the
empty string at once, with a warning; otherwise, any exception raised in
the body is caught and turned into the returned string
`"ERROR during OCR processing: " + str(e)`, and a normal body result is
returned as is — the function never propagates an exception (it is
total by construction, every failure being reflected in its return
value). -/
theorem claim_C8 (env : OcrEnv) (file_path : String) :
    (env.easyocr_available = false →
      process_document_with_ocr env file_path =
        ("", [.warning "EasyOCR not available. Cannot process document."])) ∧
    (∀ e, env.easyocr_available = true → ocrBody env file_path = .error e →
      (process_document_with_ocr env file_path).1 =
        "ERROR during OCR processing: " ++ e) ∧
    (∀ t, env.easyocr_available = true → ocrBody env file_path = .ok t →
      (process_document_with_ocr env file_path).1 = t) := by
  refine ⟨?_, ?_, ?_⟩
  · intro h
    unfold process_document_with_ocr
    rw [if_pos (by simp [h])]
  · intro e ha hb
    unfold process_document_with_ocr
    rw [if_neg (by simp [ha]), hb]
  · intro t ha hb
    unfold process_document_with_ocr
    rw [if_neg (by simp [ha]), hb]

/-- A concrete OCR environment whose reader construction raises. -/
def ocrEnvW : OcrEnv :=
  ⟨true, .error "reader boom", true, .ok [], .ok []⟩

/-- A concrete OCR environment with the engine absent. -/
def ocrEnvW2 : OcrEnv :=
  ⟨false, .ok (), true, .ok [], .ok []⟩

/-- Witness for claim C8: the unavailable case and the caught-exception
case at concrete environments. -/
theorem claim_C8_witness :
    (ocrEnvW2.easyocr_available = false ∧
      process_document_with_ocr ocrEnvW2 "a.pdf" =
        ("", [.warning "EasyOCR not available. Cannot process document."])) ∧
    (ocrEnvW.easyocr_available = true ∧
      ocrBody ocrEnvW "a.pdf" = .error "reader boom" ∧
      (process_document_with_ocr ocrEnvW "a.pdf").1 =
        "ERROR during OCR processing: " ++ "reader boom") :=
  ⟨⟨rfl, (claim_C8 ocrEnvW2 "a.pdf").1 rfl⟩,
   ⟨rfl, rfl,
    (claim_C8 ocrEnvW "a.pdf").2.1 "reader boom" rfl rfl⟩⟩

/-! ## Claim C9: the dump footer is written unconditionally -/

/-- Claim C9.  For any transcription/OCR outcome — success or caught
failure — the last write of a per-file pipeline iteration is the
summary footer appended to that file's dump file: the footer writes sit
outside the `try`/`except` in both pipelines. -/
theorem claim_C9 :
    (∀ (fp : String) (fmt : ℚ → String) (ss es : String) (dur est el : ℚ)
        (outc : Except String String),
      (processOneAV fp fmt ss dur est outc es el).getLast? =
        some (.append (avDumpPath fp) (avFooter fmt es el))) ∧
    (∀ (fp : String) (fmt : ℚ → String) (ss es : String) (el : ℚ)
        (outc : Except String String),
      (processOneDoc fp fmt ss outc es el).getLast? =
        some (.append (docDumpPath fp) (docFooter fmt es el))) := by
  constructor
  · intro fp fmt ss es dur est el outc
    rcases outc with e | t <;> rfl
  · intro fp fmt ss es el outc
    rcases outc with e | t <;> rfl

/-! ## Claim C2: is the marker written when processing fails? -/

/-- Counterexample to claim C2 as stated: in `process_audio_video_files`
the marker write sits INSIDE the `try`, after `model.transcribe`
(`media.py` lines 129–136), so when transcription raises, no write to
the marker path `d/a_mp3.txt` occurs. -/
theorem claim_C2_counterexample :
    avMarkerPath "d/a.mp3" = "d/a_mp3.txt" ∧
    (processOneAV "d/a.mp3" (fun _ => "") "S" 0 0 (.error "boom") "E" 0).all
      (fun op => ! op.isWriteTo "d/a_mp3.txt") = true := by
  constructor
  · decide
  · decide

theorem head?_ne_of_not_mem {c : Char} {l : List Char} (h : c ∉ l) :
    l.head? ≠ some c := by
  intro hh
  cases l with
  | nil => simp at hh
  | cons x t =>
    simp only [List.head?] at hh
    obtain rfl : x = c := by injection hh
    exact h (List.mem_cons_self _ _)

theorem no_slash_snd_ext (fp : String) : '/' ∉ (pySplitext fp).2.toList := by
  intro hm
  rcases splitextList_snd_shape fp.toList with hsh | ⟨a, hsh, -, hns⟩
  · rw [show (pySplitext fp).2.toList = (splitextList fp.toList).2 from rfl, hsh] at hm
    simp at hm
  · rw [show (pySplitext fp).2.toList = (splitextList fp.toList).2 from rfl, hsh] at hm
    rcases List.mem_cons.mp hm with heq | hm2
    · exact absurd heq (by decide)
    · exact hns hm2

/-- The name component `{base}_{ext}` assembled by
`process_audio_video_files` contains no slash. -/
theorem no_slash_avArg (fp : String) :
    '/' ∉ ((pySplitext (pyBasename fp)).1 ++ "_"
      ++ pyLstripDots (pyLower (pySplitext fp).2)).toList := by
  intro hm
  simp only [String.toList, String.data_append] at hm
  rcases List.mem_append.mp hm with hm | hm
  · rcases List.mem_append.mp hm with hm | hm
    · exact basenameList_no_slash fp.toList (mem_splitextList_fst hm)
    · simp at hm
  · have hm2 : '/' ∈ (pyLower (pySplitext fp).2).toList :=
      (List.dropWhile_sublist _).subset hm
    obtain ⟨c, hc, hceq⟩ := List.mem_map.mp hm2
    obtain rfl := toLower_eq_of_not_lower slash_not_lower hceq
    exact no_slash_snd_ext fp hc

theorem not_mem_append_str {c : Char} {a b : String}
    (ha : c ∉ a.toList) (hb : c ∉ b.toList) : c ∉ (a ++ b).toList := by
  intro hm
  have he : (a ++ b).toList = a.toList ++ b.toList := String.data_append a b
  rw [he] at hm
  rcases List.mem_append.mp hm with h | h
  · exact ha h
  · exact hb h

theorem pyJoin_ne_of_len {a x y : String}
    (hx : x.toList.head? ≠ some '/') (hy : y.toList.head? ≠ some '/')
    (hlen : x.length ≠ y.length) : pyJoin a x ≠ pyJoin a y := by
  unfold pyJoin
  rw [if_neg hx, if_neg hy]
  by_cases hc : a = "" ∨ endsWithSlash a
  · rw [if_pos hc, if_pos hc]
    intro h
    have h2 := congrArg String.length h
    rw [String.length_append, String.length_append] at h2
    omega
  · rw [if_neg hc, if_neg hc]
    intro h
    have h2 := congrArg String.length h
    simp only [String.length_append] at h2
    omega

/-- The marker path and the dump path of one audio/video file always
differ (the dump name carries the extra `_dump` infix piece). -/
theorem avMarker_ne_avDump (fp : String) : avMarkerPath fp ≠ avDumpPath fp := by
  unfold avMarkerPath avDumpPath
  apply pyJoin_ne_of_len
  · exact head?_ne_of_not_mem (not_mem_append_str (no_slash_avArg fp) (by decide))
  · exact head?_ne_of_not_mem (not_mem_append_str (no_slash_avArg fp) (by decide))
  · intro h
    simp only [String.length_append] at h
    have h4 : (".txt" : String).length = 4 := rfl
    have h9 : ("_dump.txt" : String).length = 9 := rfl
    rw [h4, h9] at h
    omega

/-- Claim C2 as amended.  `process_document_files` writes the marker for
every processed file — `process_document_with_ocr` never raises, so OCR
failure arrives as a returned error string, which is written to the
marker.  `process_audio_video_files`, in contrast, writes the marker iff
transcription succeeds: a raised transcription exception leaves the
marker unwritten (so that file is retried on the next run). -/
theorem claim_C2_amended :
    (∀ (fp : String) (fmt : ℚ → String) (ss es : String) (el : ℚ) (text : String),
      FileOp.write (docMarkerPath fp) text ∈ processOneDoc fp fmt ss (.ok text) es el) ∧
    (∀ (env : OcrEnv) (fp : String) (e : String),
      env.easyocr_available = true → ocrBody env fp = .error e →
      (process_document_with_ocr env fp).1 = "ERROR during OCR processing: " ++ e) ∧
    (∀ (fp : String) (fmt : ℚ → String) (ss es : String) (dur est el : ℚ) (text : String),
      FileOp.write (avMarkerPath fp) text ∈
        processOneAV fp fmt ss dur est (.ok text) es el) ∧
    (∀ (fp : String) (fmt : ℚ → String) (ss es : String) (dur est el : ℚ)
        (e : String) (c : String),
      FileOp.write (avMarkerPath fp) c ∉
        processOneAV fp fmt ss dur est (.error e) es el) := by
  refine ⟨?_, ?_, ?_, ?_⟩
  · intro fp fmt ss es el text
    unfold processOneDoc
    simp
  · intro env fp e ha hb
    unfold process_document_with_ocr
    rw [if_neg (by simp [ha]), hb]
  · intro fp fmt ss dur est el text es
    unfold processOneAV
    simp
  · intro fp fmt ss es dur est el e c hmem
    unfold processOneAV at hmem
    simp only [List.mem_append, List.mem_cons, List.not_mem_nil, or_false] at hmem
    rcases hmem with (hmem | hmem) | hmem
    · have h2 := congrArg FileOp.path hmem
      simp only [FileOp.path] at h2
      exact avMarker_ne_avDump fp h2
    · exact FileOp.noConfusion hmem
    · exact FileOp.noConfusion hmem

/-- Witness for claim C2 (amended) at concrete files and outcomes. -/
theorem claim_C2_amended_witness :
    FileOp.write (docMarkerPath "d/b.pdf") "O" ∈
      processOneDoc "d/b.pdf" (fun _ => "") "S" (.ok "O") "E" 0 ∧
    FileOp.write (avMarkerPath "d/a.mp3") "T" ∈
      processOneAV "d/a.mp3" (fun _ => "") "S" 0 0 (.ok "T") "E" 0 ∧
    FileOp.write (avMarkerPath "d/a.mp3") "T" ∉
      processOneAV "d/a.mp3" (fun _ => "") "S" 0 0 (.error "boom") "E" 0 :=
  ⟨claim_C2_amended.1 "d/b.pdf" (fun _ => "") "S" "E" 0 "O",
   claim_C2_amended.2.2.1 "d/a.mp3" (fun _ => "") "S" "E" 0 0 0 "T",
   claim_C2_amended.2.2.2 "d/a.mp3" (fun _ => "") "S" "E" 0 0 0 "boom" "T"⟩

/-! ## Claim C6: the sampling loop's interaction with the stop signal -/

theorem monitorLoop_eq_exit {oracle : ℕ → Bool} {k : ℕ} (fuel : ℕ)
    (hk : oracle k = true) :
    monitorLoop oracle (fuel + 1) k = [Action.observe true] := by
  unfold monitorLoop
  rw [hk]
  simp

theorem monitorLoop_eq_break {oracle : ℕ → Bool} {k : ℕ} (fuel : ℕ)
    (hk : oracle k = false) (hk2 : oracle (k + 1) = true) :
    monitorLoop oracle (fuel + 1) k =
      [Action.observe false, Action.observe true] := by
  unfold monitorLoop
  rw [hk, hk2]
  simp

theorem monitorLoop_eq_step {oracle : ℕ → Bool} {k : ℕ} (fuel : ℕ)
    (hk : oracle k = false) (hk2 : oracle (k + 1) = false) :
    monitorLoop oracle (fuel + 1) k =
      Action.observe false :: Action.observe false :: Action.sample ::
        monitorLoop oracle fuel (k + 2) := by
  show (Action.observe (oracle k) ::
      if oracle k = true then []
      else Action.observe (oracle (k + 1)) ::
        if oracle (k + 1) = true then []
        else Action.sample :: monitorLoop oracle fuel (k + 2)) = _
  rw [hk, hk2]
  simp

theorem monitorLoopStats_true (oracle : ℕ → Bool) :
    ∀ (fuel k : ℕ) (l₁ l₂ : List Action),
      monitorLoop oracle fuel k ++ [Action.stats] = l₁ ++ Action.observe true :: l₂ →
      l₂ = [Action.stats] := by
  intro fuel
  induction fuel with
  | zero =>
    intro k l₁ l₂ h
    rw [show monitorLoop oracle 0 k = [] from rfl, List.nil_append] at h
    cases l₁ with
    | nil => simp at h
    | cons x t =>
      simp only [List.cons_append, List.cons.injEq] at h
      exact absurd h.2.symm (by simp)
  | succ f ih =>
    intro k l₁ l₂ h
    by_cases hk : oracle k = true
    · rw [monitorLoop_eq_exit f hk] at h
      cases l₁ with
      | nil =>
        simp only [List.cons_append, List.nil_append, List.cons.injEq] at h
        exact h.2.symm
      | cons x t =>
        cases t with
        | nil => simp at h
        | cons y u => simp at h
    · have hkf : oracle k = false := by simpa using hk
      by_cases hk2 : oracle (k + 1) = true
      · rw [monitorLoop_eq_break f hkf hk2] at h
        cases l₁ with
        | nil => simp at h
        | cons x t =>
          cases t with
          | nil =>
            simp only [List.cons_append, List.nil_append, List.cons.injEq] at h
            exact h.2.2.symm
          | cons y u =>
            cases u with
            | nil => simp at h
            | cons z v => simp at h
      · have hk2f : oracle (k + 1) = false := by simpa using hk2
        rw [monitorLoop_eq_step f hkf hk2f] at h
        cases l₁ with
        | nil => simp at h
        | cons x t =>
          cases t with
          | nil => simp at h
          | cons y u =>
            cases u with
            | nil => simp at h
            | cons z v =>
              simp only [List.cons_append, List.cons.injEq] at h
              exact ih (k + 2) v l₂ h.2.2.2

theorem monitorLoopStats_sample_prev (oracle : ℕ → Bool) :
    ∀ (fuel k : ℕ) (l₁ l₂ : List Action),
      monitorLoop oracle fuel k ++ [Action.stats] = l₁ ++ Action.sample :: l₂ →
      ∃ l₀, l₁ = l₀ ++ [Action.observe false] := by
  intro fuel
  induction fuel with
  | zero =>
    intro k l₁ l₂ h
    rw [show monitorLoop oracle 0 k = [] from rfl, List.nil_append] at h
    cases l₁ with
    | nil => simp at h
    | cons x t =>
      simp only [List.cons_append, List.cons.injEq] at h
      exact absurd h.2.symm (by simp)
  | succ f ih =>
    intro k l₁ l₂ h
    by_cases hk : oracle k = true
    · rw [monitorLoop_eq_exit f hk] at h
      cases l₁ with
      | nil => simp at h
      | cons x t =>
        cases t with
        | nil => simp at h
        | cons y u => simp at h
    · have hkf : oracle k = false := by simpa using hk
      by_cases hk2 : oracle (k + 1) = true
      · rw [monitorLoop_eq_break f hkf hk2] at h
        cases l₁ with
        | nil => simp at h
        | cons x t =>
          cases t with
          | nil => simp at h
          | cons y u =>
            cases u with
            | nil => simp at h
            | cons z v => simp at h
      · have hk2f : oracle (k + 1) = false := by simpa using hk2
        rw [monitorLoop_eq_step f hkf hk2f] at h
        cases l₁ with
        | nil => simp at h
        | cons x t =>
          cases t with
          | nil => simp at h
          | cons y u =>
            cases u with
            | nil =>
              simp only [List.cons_append, List.nil_append, List.cons.injEq] at h
              obtain ⟨rfl, rfl, -, -⟩ := h
              exact ⟨[Action.observe false], rfl⟩
            | cons z v =>
              simp only [List.cons_append, List.cons.injEq] at h
              obtain ⟨rfl, rfl, rfl, hrec⟩ := h
              obtain ⟨l₀, rfl⟩ := ih (k + 2) v l₂ hrec
              exact ⟨Action.observe false :: Action.observe false ::
                Action.sample :: l₀, by simp⟩

theorem monitorLoop_reaches (oracle : ℕ → Bool)
    (hmono : ∀ m, oracle m = true → oracle (m + 1) = true) :
    ∀ (fuel k : ℕ), oracle (k + fuel) = true →
      Action.observe true ∈ monitorLoop oracle (fuel + 1) k := by
  intro fuel
  induction fuel with
  | zero =>
    intro k hk
    rw [monitorLoop_eq_exit 0 (by simpa using hk)]
    simp
  | succ f ih =>
    intro k hk
    by_cases h0 : oracle k = true
    · rw [monitorLoop_eq_exit (f + 1) h0]
      simp
    · have h0f : oracle k = false := by simpa using h0
      by_cases h1 : oracle (k + 1) = true
      · rw [monitorLoop_eq_break (f + 1) h0f h1]
        simp
      · have h1f : oracle (k + 1) = false := by simpa using h1
        rw [monitorLoop_eq_step (f + 1) h0f h1f]
        have hk2 : oracle (k + 2 + f) = true := by
          have : k + 2 + f = (k + (f + 1)) + 1 := by omega
          rw [this]
          exact hmono _ hk
        have := ih (k + 2) hk2
        simp [this]

/-- Claim C6.  Abstracting real time to the sequence of observations of
the stop event (monotone `oracle`, set from observation `N` on), the
`monitor_resources` loop: takes exactly one sample at entry before any
observation; takes further samples only immediately after a timed-out
wait (an observation of `false`); exits without sampling as soon as an
observation returns `true` — nothing but the final statistics follows a
`true` observation; and the statistics computation is the last action,
occurring after the signal has been observed. -/
theorem claim_C6 (oracle : ℕ → Bool) (fuel N : ℕ)
    (hmono : ∀ m, oracle m = true → oracle (m + 1) = true)
    (hN : oracle N = true) (hfuel : N < fuel) :
    (monitorRun oracle fuel).head? = some Action.sample ∧
    (monitorRun oracle fuel)[1]? = some (Action.observe (oracle 0)) ∧
    (∀ l₁ l₂, monitorRun oracle fuel = l₁ ++ Action.sample :: l₂ →
      l₁ = [] ∨ ∃ l₀, l₁ = l₀ ++ [Action.observe false]) ∧
    (∀ l₁ l₂, monitorRun oracle fuel = l₁ ++ Action.observe true :: l₂ →
      l₂ = [Action.stats]) ∧
    (∃ l₁, monitorRun oracle fuel = l₁ ++ [Action.observe true, Action.stats]) ∧
    (monitorRun oracle fuel).getLast? = some Action.stats := by
  obtain ⟨f, rfl⟩ : ∃ f, fuel = f + 1 := ⟨fuel - 1, by omega⟩
  have hmonoN : ∀ m, N ≤ m → oracle m = true := by
    intro m hm
    induction m, hm using Nat.le_induction with
    | base => exact hN
    | succ m hm ih => exact hmono m ih
  have htrue : ∀ l₁ l₂, monitorRun oracle (f + 1) = l₁ ++ Action.observe true :: l₂ →
      l₂ = [Action.stats] := by
    intro l₁ l₂ h
    cases l₁ with
    | nil =>
      unfold monitorRun at h
      simp at h
    | cons x t =>
      unfold monitorRun at h
      simp only [List.cons_append, List.cons.injEq] at h
      exact monitorLoopStats_true oracle (f + 1) 0 t l₂ h.2
  refine ⟨rfl, ?_, ?_, htrue, ?_, ?_⟩
  · show (Action.sample :: (monitorLoop oracle (f + 1) 0 ++ [Action.stats]))[1]?
      = some (Action.observe (oracle 0))
    rw [show monitorLoop oracle (f + 1) 0
        = Action.observe (oracle 0) ::
          (if oracle 0 = true then []
           else Action.observe (oracle 1) ::
             if oracle 1 = true then []
             else Action.sample :: monitorLoop oracle f 2) from rfl]
    simp
  · intro l₁ l₂ h
    cases l₁ with
    | nil => exact Or.inl rfl
    | cons x t =>
      unfold monitorRun at h
      simp only [List.cons_append, List.cons.injEq] at h
      obtain ⟨l₀, rfl⟩ :=
        monitorLoopStats_sample_prev oracle (f + 1) 0 t l₂ h.2
      exact Or.inr ⟨x :: l₀, by simp⟩
  · have hmem : Action.observe true ∈ monitorLoop oracle (f + 1) 0 :=
      monitorLoop_reaches oracle hmono f 0 (hmonoN (0 + f) (by omega))
    obtain ⟨s, t, hst⟩ := List.append_of_mem hmem
    have hds : monitorRun oracle (f + 1)
        = (Action.sample :: s) ++ Action.observe true :: (t ++ [Action.stats]) := by
      unfold monitorRun
      rw [hst]
      simp
    have ht : t ++ [Action.stats] = [Action.stats] := htrue _ _ hds
    have ht2 : t = [] := by
      have := congrArg List.length ht
      simp at this
      exact this
    refine ⟨Action.sample :: s, ?_⟩
    rw [hds, ht2]
    simp
  · rw [show monitorRun oracle (f + 1)
        = (Action.sample :: monitorLoop oracle (f + 1) 0) ++ [Action.stats] from by
      unfold monitorRun
      simp]
    exact List.getLast?_concat _

/-- A concrete stop-event oracle for the witness: set from the third
observation on. -/
def oracleW : ℕ → Bool := fun k => decide (2 ≤ k)

/-- Witness for claim C6 at a concrete oracle and fuel. -/
theorem claim_C6_witness :
    ((∀ m, oracleW m = true → oracleW (m + 1) = true) ∧ oracleW 2 = true ∧ 2 < 3) ∧
    (monitorRun oracleW 3).head? = some Action.sample ∧
    (∃ l₁, monitorRun oracleW 3 = l₁ ++ [Action.observe true, Action.stats]) :=
  have hmono : ∀ m, oracleW m = true → oracleW (m + 1) = true := by
    intro m hm
    simp only [oracleW, decide_eq_true_eq] at hm ⊢
    omega
  ⟨⟨hmono, by decide, by decide⟩,
   (claim_C6 oracleW 3 2 hmono (by decide) (by decide)).1,
   (claim_C6 oracleW 3 2 hmono (by decide) (by decide)).2.2.2.2.1⟩

end Textify
